import Mathlib

/-!
Verification of `fraclib/types/signals.py`

A shallow embedding of the trading-signal record and its codec from
`src/fraclib/types/signals.py`, together with theorems settling the frozen
claims about the module.

Modelling conventions:
* Python `Decimal` values are triples (sign, coefficient digits, exponent),
  exactly as in `decimal.Decimal._sign/_int/_exp` (finite values only; the
  special values NaN/Infinity never arise in the claims).  `Decimal.str`
  follows the to-scientific-string algorithm of `_pydecimal.__str__`, and
  `Decimal.parse` follows the numeric-string grammar of the `Decimal`
  constructor (without the whitespace stripping and underscore removal,
  which no claim exercises).
* Python `datetime` values are naive calendar tuples; `DateTime.isoformat`
  mirrors `datetime.isoformat()` for the naive case.
* A Python dict is an insertion-ordered association list `InterMap`;
  `lookupKV`/`updateKV` are dict read and in-place write of an existing key
  (the source only ever assigns to keys that are present).
* Exceptions are the explicit error type `PyErr`.  `PyErr.unknownEnumValue`
  is the abstract error the specification's taxonomy describes; the code
  never produces it, which is what claim C7 is about.
* Dynamic typing: the record's fields are given their annotated types.  The
  `timestamp` field is `TsVal` (datetime or string) because `from_dict`
  passes the interchange string through unparsed, so real records carry
  either.  `buildSignal` rejects values of the wrong shape with a model-level
  `typeError`; Python would instead store the ill-typed value, but no claim
  quantifies over such inputs.
-/

/-- Tags of `class TradeType(Enum)` (names equal values in the source). -/
inductive TradeType
  | PERP
  | SPOT
  | EVM
deriving DecidableEq

/-- Tags of `class SignalType(Enum)`. -/
inductive SignalType
  | TRADE
deriving DecidableEq

/-- Tags of `class Side(Enum)`. -/
inductive Side
  | BUY
  | SELL
deriving DecidableEq

/-- Tags of `class OrderType(Enum)`. -/
inductive OrderType
  | MARKET
  | LIMIT
  | STOP_LOSS
  | TAKE_PROFIT
deriving DecidableEq

/-- The `.value` string of a `TradeType` member. -/
def TradeType.value : TradeType → String
  | .PERP => "PERP"
  | .SPOT => "SPOT"
  | .EVM => "EVM"

/-- The `.value` string of a `SignalType` member. -/
def SignalType.value : SignalType → String
  | .TRADE => "TRADE"

/-- The `.value` string of a `Side` member. -/
def Side.value : Side → String
  | .BUY => "BUY"
  | .SELL => "SELL"

/-- The `.value` string of an `OrderType` member. -/
def OrderType.value : OrderType → String
  | .MARKET => "MARKET"
  | .LIMIT => "LIMIT"
  | .STOP_LOSS => "STOP_LOSS"
  | .TAKE_PROFIT => "TAKE_PROFIT"

/-- Python `TradeType[s]`: lookup of a member by NAME (raises `KeyError` on
failure, modelled by `none`).  In this source every member name equals its
value string. -/
def TradeType.fromName (s : String) : Option TradeType :=
  if s = "PERP" then some .PERP
  else if s = "SPOT" then some .SPOT
  else if s = "EVM" then some .EVM
  else none

/-- Python `SignalType[s]`. -/
def SignalType.fromName (s : String) : Option SignalType :=
  if s = "TRADE" then some .TRADE else none

/-- Python `Side[s]`. -/
def Side.fromName (s : String) : Option Side :=
  if s = "BUY" then some .BUY
  else if s = "SELL" then some .SELL
  else none

/-- Python `OrderType[s]`. -/
def OrderType.fromName (s : String) : Option OrderType :=
  if s = "MARKET" then some .MARKET
  else if s = "LIMIT" then some .LIMIT
  else if s = "STOP_LOSS" then some .STOP_LOSS
  else if s = "TAKE_PROFIT" then some .TAKE_PROFIT
  else none

/-- A finite Python `decimal.Decimal`: sign flag, coefficient digits
(most significant first, as in `Decimal.as_tuple()`), and exponent. -/
structure Decimal where
  neg : Bool
  digits : List Nat
  exp : Int
deriving DecidableEq

/-- Well-formedness of a coefficient as Python maintains it: nonempty digit
string, each digit below ten, and no leading zero except for the single
digit of a zero coefficient. -/
def Decimal.Wf (d : Decimal) : Prop :=
  d.digits ≠ [] ∧ (∀ x ∈ d.digits, x < 10) ∧
    (d.digits.head? = some 0 → d.digits = [0])

instance : DecidablePred Decimal.Wf := fun d => by
  unfold Decimal.Wf; infer_instance

/-- Numeric value of a digit string read most-significant-first. -/
def ofDigitsNat (ds : List Nat) : Nat :=
  ds.foldl (fun a d => 10 * a + d) 0

/-- Coefficient of a decimal as a natural number. -/
def Decimal.coeff (d : Decimal) : Nat := ofDigitsNat d.digits

/-- Signed coefficient. -/
def Decimal.sVal (d : Decimal) : Int :=
  if d.neg then -(d.coeff : Int) else (d.coeff : Int)

/-- Exact rational value of a decimal: `sVal * 10 ^ exp`. -/
def Decimal.toRat (d : Decimal) : ℚ :=
  (d.sVal : ℚ) * (10 : ℚ) ^ d.exp

/-- Python `n < d` for an int `n` and a decimal `d` (numeric comparison,
performed on integers after scaling by a power of ten). -/
def Decimal.intLt (n : Int) (d : Decimal) : Bool :=
  if 0 ≤ d.exp then n < d.sVal * 10 ^ d.exp.toNat
  else n * 10 ^ (-d.exp).toNat < d.sVal

/-- Python `d <= n` for a decimal `d` and an int `n`. -/
def Decimal.leInt (d : Decimal) (n : Int) : Bool :=
  if 0 ≤ d.exp then d.sVal * 10 ^ d.exp.toNat ≤ n
  else d.sVal ≤ n * 10 ^ (-d.exp).toNat

/-- The character of a single digit. -/
def digitChar (d : Nat) : Char := Char.ofNat (48 + d)

/-- Digit characters of a positive natural number, most significant first
(structural fuel recursion so that the kernel can evaluate it). -/
def natCharsAux : Nat → Nat → List Char
  | 0, _ => []
  | fuel + 1, n =>
    if n = 0 then []
    else natCharsAux fuel (n / 10) ++ [digitChar (n % 10)]

/-- Decimal digit characters of a natural number. -/
def natChars (n : Nat) : List Char :=
  if n = 0 then ['0'] else natCharsAux (n + 1) n

/-- Python `"%+d" % n`: an explicit sign followed by the digits. -/
def intSignedChars (n : Int) : List Char :=
  (if n < 0 then '-' else '+') :: natChars n.natAbs

/-- Coefficient digits as characters. -/
def Decimal.digitChars (d : Decimal) : List Char := d.digits.map digitChar

/-- Python `str(Decimal)`: the to-scientific-string algorithm of
`_pydecimal.Decimal.__str__` for finite values. -/
def Decimal.str (d : Decimal) : String :=
  let leftdigits : Int := d.exp + d.digits.length
  let dotplace : Int :=
    if d.exp ≤ 0 ∧ leftdigits > -6 then leftdigits else 1
  let body : List Char :=
    if dotplace ≤ 0 then
      '0' :: '.' :: (List.replicate (-dotplace).toNat '0' ++ d.digitChars)
    else if (d.digits.length : Int) ≤ dotplace then
      d.digitChars ++ List.replicate (dotplace - d.digits.length).toNat '0'
    else
      d.digitChars.take dotplace.toNat ++ '.' :: d.digitChars.drop dotplace.toNat
  let expPart : List Char :=
    if leftdigits = dotplace then []
    else 'E' :: intSignedChars (leftdigits - dotplace)
  ⟨(if d.neg then ['-'] else []) ++ body ++ expPart⟩

/-- Numeric value of a digit character, if it is one. -/
def charDigit (c : Char) : Option Nat :=
  if '0' ≤ c ∧ c ≤ '9' then some (c.toNat - 48) else none

/-- Read a character list consisting only of digits. -/
def digitsOfChars : List Char → Option (List Nat)
  | [] => some []
  | c :: t =>
    match charDigit c, digitsOfChars t with
    | some d, some ds => some (d :: ds)
    | _, _ => none

/-- Split at the first exponent marker `e`/`E`. -/
def splitAtExp : List Char → List Char × Option (List Char)
  | [] => ([], none)
  | c :: t =>
    if c = 'e' ∨ c = 'E' then ([], some t)
    else
      let r := splitAtExp t
      (c :: r.1, r.2)

/-- Split at the first decimal point. -/
def splitAtDot : List Char → List Char × Option (List Char)
  | [] => ([], none)
  | c :: t =>
    if c = '.' then ([], some t)
    else
      let r := splitAtDot t
      (c :: r.1, r.2)

/-- Read an optional leading sign. -/
def takeSign (l : List Char) : Bool × List Char :=
  match l with
  | c :: t =>
    if c = '-' then (true, t)
    else if c = '+' then (false, t)
    else (false, l)
  | [] => (false, [])

/-- Parse the exponent part (after `E`): optional sign, then digits. -/
def parseExpPart (l : List Char) : Option Int :=
  let s := takeSign l
  match digitsOfChars s.2 with
  | some ds =>
    if s.2.isEmpty then none
    else some (if s.1 then -(ofDigitsNat ds : Int) else (ofDigitsNat ds : Int))
  | none => none

/-- Assemble a parsed decimal the way the `Decimal` constructor does:
concatenate integer and fractional digits, normalise the coefficient by
stripping leading zeros (keeping a single `0` for zero), and subtract the
fraction length from the exponent. -/
def mkParsed (neg : Bool) (ids fds : List Nat) (e : Int) : Decimal :=
  let all := ids ++ fds
  let stripped := all.dropWhile (· = 0)
  ⟨neg, if stripped.isEmpty then [0] else stripped, e - fds.length⟩

/-- Python `Decimal(s)` on a numeric string: `none` models the
`InvalidOperation` raised on a malformed input. -/
def Decimal.parse (s : String) : Option Decimal :=
  let me := splitAtExp s.data
  let sr := takeSign me.1
  let ifr := splitAtDot sr.2
  match digitsOfChars ifr.1,
        (match ifr.2 with
         | none => some ([] : List Nat)
         | some f => digitsOfChars f) with
  | some ids, some fds =>
    if ifr.1.isEmpty && (match ifr.2 with | none => true | some f => f.isEmpty)
    then none
    else
      match me.2 with
      | none => some (mkParsed sr.1 ids fds 0)
      | some ep =>
        match parseExpPart ep with
        | some e => some (mkParsed sr.1 ids fds e)
        | none => none
  | _, _ => none

/-- A naive Python `datetime` (the claims never exercise timezone-aware
values; the spec assumes UTC-normalised naive timestamps). -/
structure DateTime where
  year : Nat
  month : Nat
  day : Nat
  hour : Nat
  minute : Nat
  second : Nat
  microsecond : Nat
deriving DecidableEq

/-- Left-pad a number with zeros to a given width. -/
def padChars (w n : Nat) : List Char :=
  let ds := natChars n
  List.replicate (w - ds.length) '0' ++ ds

/-- Python `datetime.isoformat()` for a naive datetime: the `sep`-joined
date and time, microseconds printed only when nonzero. -/
def DateTime.isoformatSep (sep : Char) (t : DateTime) : List Char :=
  padChars 4 t.year ++ '-' :: padChars 2 t.month ++ '-' :: padChars 2 t.day ++
    sep :: padChars 2 t.hour ++ ':' :: padChars 2 t.minute ++
    ':' :: padChars 2 t.second ++
    (if t.microsecond = 0 then [] else '.' :: padChars 6 t.microsecond)

/-- Python `datetime.isoformat()` (default separator `T`). -/
def DateTime.isoformat (t : DateTime) : String := ⟨t.isoformatSep 'T'⟩

/-- Python `str(datetime)`: isoformat with a space separator. -/
def DateTime.pyStr (t : DateTime) : String := ⟨t.isoformatSep ' '⟩

/-- An enum member, as a Python object stored in a dict. -/
inductive EnumV
  | tt (t : TradeType)
  | sig (t : SignalType)
  | sd (s : Side)
  | ot (o : OrderType)
deriving DecidableEq

/-- The `.value` string of an enum member. -/
def EnumV.value : EnumV → String
  | .tt t => t.value
  | .sig t => t.value
  | .sd s => s.value
  | .ot o => o.value

/-- Python `str(member)`, i.e. `"ClassName.NAME"` (member names equal their
value strings in this source). -/
def EnumV.pyRepr : EnumV → String
  | .tt t => "TradeType." ++ t.value
  | .sig t => "SignalType." ++ t.value
  | .sd s => "Side." ++ s.value
  | .ot o => "OrderType." ++ o.value

/-- A Python value as it occurs in the signal record or an interchange
dict. -/
inductive PyVal
  | str (s : String)
  | bool (b : Bool)
  | none
  | dec (d : Decimal)
  | dt (t : DateTime)
  | enum (e : EnumV)
deriving DecidableEq

/-- Python `str(value)` for the shapes above. -/
def pyStr : PyVal → String
  | .str s => s
  | .bool b => if b then "True" else "False"
  | .none => "None"
  | .dec d => d.str
  | .dt t => t.pyStr
  | .enum e => e.pyRepr

/-- An insertion-ordered Python dict. -/
abbrev InterMap : Type := List (String × PyVal)

/-- Dict read: the value bound to a key. -/
def lookupKV (k : String) : InterMap → Option PyVal
  | [] => Option.none
  | (a, b) :: t => if a = k then some b else lookupKV k t

/-- Dict write to an existing key (`data[k] = v` where `k in data`), kept at
its position; absent keys are left alone, which is faithful because the
source only assigns to keys it has just tested with `k in data`. -/
def updateKV (k : String) (v : PyVal) : InterMap → InterMap
  | [] => []
  | (a, b) :: t => if a = k then (a, v) :: t else (a, b) :: updateKV k v t

/-- A raised Python exception, as far as the module distinguishes them.
`unknownEnumValue` is the specification's abstract `UnknownEnumValue{field,
value}` failure; no operation of the code constructs it (claim C7). -/
inductive PyErr
  | valueError (msg : String)
  | keyError (key : PyVal)
  | invalidOperation (s : String)
  | typeError (msg : String)
  | unknownEnumValue (field : String) (value : PyVal)
deriving DecidableEq

/-- The timestamp slot of a record: `datetime` when constructed directly,
or the raw interchange string when built by `from_dict`, which never parses
it back (the field's own annotation says `datetime`). -/
inductive TsVal
  | dt (t : DateTime)
  | str (s : String)
deriving DecidableEq

/-- The `TradingSignal` dataclass fields, with their annotated types. -/
structure TradingSignal where
  signal_id : String
  timestamp : TsVal
  type : SignalType
  trade_type : TradeType
  symbol : String
  side : Side
  order_type : OrderType
  amount_capital_percent : Decimal
  fixed_size : Option Decimal
  leverage : Option Decimal
  limit_price : Option Decimal
  stop_price : Option Decimal
  take_profit_price : Option Decimal
  slippage : Option Decimal
  network : Option String
  contract_address : Option String
  dex_id : Option String
  reduce_only : Bool
  message : String
  source : Option String
  strategy_name : Option String
  timeframe : Option String
  exchange : Option String
deriving DecidableEq

/-- Python truthiness test `not self.contract_address`: `None` or the empty
string are falsy. -/
def strFalsy : Option String → Bool
  | Option.none => true
  | some s => s = ""

/-- Python `TradingSignal.__post_init__`: the validation pass run at construction,
failing with the source's `ValueError`s in order.  The percent check is
Python `not 0 < p <= 100` on the exact decimal; the LIMIT check is
`order_type in [OrderType.LIMIT]`. -/
def postInit (s : TradingSignal) : Except PyErr TradingSignal :=
  if ¬ (Decimal.intLt 0 s.amount_capital_percent = true ∧
        Decimal.leInt s.amount_capital_percent 100 = true) then
    .error (.valueError "amount_capital_percent must be between 0 and 100")
  else if s.trade_type = TradeType.EVM ∧ strFalsy s.contract_address = true then
    .error (.valueError "contract_address is required for EVM trades")
  else if s.order_type = OrderType.LIMIT ∧ s.limit_price = Option.none then
    .error (.valueError "limit_price is required for LIMIT and POST_ONLY orders")
  else if s.order_type = OrderType.STOP_LOSS ∧ s.stop_price = Option.none then
    .error (.valueError "stop_price is required for STOP_LOSS orders")
  else if s.order_type = OrderType.TAKE_PROFIT ∧ s.take_profit_price = Option.none then
    .error (.valueError "take_profit_price is required for TAKE_PROFIT orders")
  else
    .ok s

/-- The dataclass field names in declaration order
(`self.__dataclass_fields__`). -/
def fieldNames : List String :=
  ["signal_id", "timestamp", "type", "trade_type", "symbol", "side",
   "order_type", "amount_capital_percent", "fixed_size", "leverage",
   "limit_price", "stop_price", "take_profit_price", "slippage",
   "network", "contract_address", "dex_id", "reduce_only", "message",
   "source", "strategy_name", "timeframe", "exchange"]

/-- An optional decimal as the Python attribute value. -/
def optDecPy : Option Decimal → PyVal
  | Option.none => PyVal.none
  | some d => PyVal.dec d

/-- An optional string as the Python attribute value. -/
def optStrPy : Option String → PyVal
  | Option.none => PyVal.none
  | some s => PyVal.str s

/-- The timestamp slot as the Python attribute value. -/
def tsPy : TsVal → PyVal
  | .dt t => PyVal.dt t
  | .str s => PyVal.str s

/-- Python `getattr(self, field)` for every dataclass field, in declaration
order. -/
def fieldsOf (s : TradingSignal) : InterMap :=
  [("signal_id", PyVal.str s.signal_id),
   ("timestamp", tsPy s.timestamp),
   ("type", PyVal.enum (.sig s.type)),
   ("trade_type", PyVal.enum (.tt s.trade_type)),
   ("symbol", PyVal.str s.symbol),
   ("side", PyVal.enum (.sd s.side)),
   ("order_type", PyVal.enum (.ot s.order_type)),
   ("amount_capital_percent", PyVal.dec s.amount_capital_percent),
   ("fixed_size", optDecPy s.fixed_size),
   ("leverage", optDecPy s.leverage),
   ("limit_price", optDecPy s.limit_price),
   ("stop_price", optDecPy s.stop_price),
   ("take_profit_price", optDecPy s.take_profit_price),
   ("slippage", optDecPy s.slippage),
   ("network", optStrPy s.network),
   ("contract_address", optStrPy s.contract_address),
   ("dex_id", optStrPy s.dex_id),
   ("reduce_only", PyVal.bool s.reduce_only),
   ("message", PyVal.str s.message),
   ("source", optStrPy s.source),
   ("strategy_name", optStrPy s.strategy_name),
   ("timeframe", optStrPy s.timeframe),
   ("exchange", optStrPy s.exchange)]

/-- The per-value conversion of `to_dict`: enum members to their value
string, datetimes to `isoformat() + 'Z'`, decimals to `str(value)`, all
other values unchanged. -/
def convVal : PyVal → PyVal
  | .enum e => .str e.value
  | .dt t => .str (t.isoformat ++ "Z")
  | .dec d => .str d.str
  | v => v

/-- Python `TradingSignal.to_dict`: the dict of non-`None` attributes, each value
rendered by `convVal`. -/
def to_dict (s : TradingSignal) : InterMap :=
  ((fieldsOf s).filter (fun kv => kv.2 ≠ PyVal.none)).map
    (fun kv => (kv.1, convVal kv.2))

/-- One in-place conversion pass of `from_dict`, returning the possibly
raised exception together with the state of the dict when it returns or
raises. -/
abbrev ConvStep : Type := InterMap → Option PyErr × InterMap

/-- The enum-conversion assignment `data[field] = enum_class[data[field]]`,
performed only when `field in data`.  A failed name lookup is Python's
`KeyError(data[field])`, which carries the offending value and nothing
else. -/
def convEnum (name : String) (f : String → Option EnumV) : ConvStep :=
  fun m =>
    match lookupKV name m with
    | Option.none => (Option.none, m)
    | some (.str t) =>
      match f t with
      | some e => (Option.none, updateKV name (.enum e) m)
      | Option.none => (some (.keyError (.str t)), m)
    | some v => (some (.keyError v), m)

/-- The decimal-conversion assignment
`data[field] = Decimal(str(data[field]))`, performed only when
`field in data and data[field] is not None`. -/
def convDec (name : String) : ConvStep :=
  fun m =>
    match lookupKV name m with
    | Option.none => (Option.none, m)
    | some PyVal.none => (Option.none, m)
    | some v =>
      match Decimal.parse (pyStr v) with
      | some d => (Option.none, updateKV name (.dec d) m)
      | Option.none => (some (.invalidOperation (pyStr v)), m)

/-- Run conversion passes in order, stopping at the first raised exception
with the dict as mutated so far. -/
def runSteps : List ConvStep → InterMap → Option PyErr × InterMap
  | [], m => (Option.none, m)
  | f :: fs, m =>
    match f m with
    | (some e, m') => (some e, m')
    | (Option.none, m') => runSteps fs m'

/-- The conversion passes of `from_dict`, in source order: the four enum
fields of the `enum_fields` dict, then the seven `decimal_fields`. -/
def allConvSteps : List ConvStep :=
  [convEnum "type" (fun t => (SignalType.fromName t).map EnumV.sig),
   convEnum "trade_type" (fun t => (TradeType.fromName t).map EnumV.tt),
   convEnum "side" (fun t => (Side.fromName t).map EnumV.sd),
   convEnum "order_type" (fun t => (OrderType.fromName t).map EnumV.ot),
   convDec "amount_capital_percent",
   convDec "fixed_size",
   convDec "leverage",
   convDec "limit_price",
   convDec "stop_price",
   convDec "take_profit_price",
   convDec "slippage"]

/-- Keyword check of `cls(**data)`: every key must be a dataclass field. -/
def allKeysKnown (m : InterMap) : Bool :=
  m.all (fun kv => fieldNames.contains kv.1)

/-- Missing-argument failure of `cls(**data)`. -/
def missingArg (k : String) : PyErr :=
  .typeError ("missing required argument: " ++ k)

/-- Model-level shape mismatch (see the module docstring above). -/
def shapeErr (k : String) : PyErr :=
  .typeError ("model: unexpected value shape for " ++ k)

/-- Read a required string field out of the converted dict. -/
def getStr (k : String) (m : InterMap) : Except PyErr String :=
  match lookupKV k m with
  | some (.str s) => .ok s
  | Option.none => .error (missingArg k)
  | some _ => .error (shapeErr k)

/-- Read an optional string field (absent keys give the dataclass default
`None`). -/
def getOptStr (k : String) (m : InterMap) : Except PyErr (Option String) :=
  match lookupKV k m with
  | some (.str s) => .ok (some s)
  | Option.none => .ok Option.none
  | some _ => .error (shapeErr k)

/-- Read the required decimal field. -/
def getDec (k : String) (m : InterMap) : Except PyErr Decimal :=
  match lookupKV k m with
  | some (.dec d) => .ok d
  | Option.none => .error (missingArg k)
  | some _ => .error (shapeErr k)

/-- Read an optional decimal field. -/
def getOptDec (k : String) (m : InterMap) : Except PyErr (Option Decimal) :=
  match lookupKV k m with
  | some (.dec d) => .ok (some d)
  | Option.none => .ok Option.none
  | some _ => .error (shapeErr k)

/-- Read `reduce_only` (default `False`). -/
def getBoolDef (k : String) (m : InterMap) : Except PyErr Bool :=
  match lookupKV k m with
  | some (.bool b) => .ok b
  | Option.none => .ok false
  | some _ => .error (shapeErr k)

/-- Read `timestamp`: `from_dict` passes it through unconverted, so a
datetime or a string lands in the record as-is. -/
def getTs (k : String) (m : InterMap) : Except PyErr TsVal :=
  match lookupKV k m with
  | some (.dt t) => .ok (TsVal.dt t)
  | some (.str s) => .ok (TsVal.str s)
  | Option.none => .error (missingArg k)
  | some _ => .error (shapeErr k)

/-- Read the `type` field after conversion. -/
def getSignalType (m : InterMap) : Except PyErr SignalType :=
  match lookupKV "type" m with
  | some (.enum (.sig t)) => .ok t
  | Option.none => .error (missingArg "type")
  | some _ => .error (shapeErr "type")

/-- Read the `trade_type` field after conversion. -/
def getTradeType (m : InterMap) : Except PyErr TradeType :=
  match lookupKV "trade_type" m with
  | some (.enum (.tt t)) => .ok t
  | Option.none => .error (missingArg "trade_type")
  | some _ => .error (shapeErr "trade_type")

/-- Read the `side` field after conversion. -/
def getSide (m : InterMap) : Except PyErr Side :=
  match lookupKV "side" m with
  | some (.enum (.sd t)) => .ok t
  | Option.none => .error (missingArg "side")
  | some _ => .error (shapeErr "side")

/-- Read the `order_type` field after conversion. -/
def getOrderType (m : InterMap) : Except PyErr OrderType :=
  match lookupKV "order_type" m with
  | some (.enum (.ot t)) => .ok t
  | Option.none => .error (missingArg "order_type")
  | some _ => .error (shapeErr "order_type")

/-- Python `cls(**data)` on the converted dict: keyword checks, field extraction,
then the `__post_init__` validation pass. -/
def buildSignal (m : InterMap) : Except PyErr TradingSignal := do
  if allKeysKnown m then
    let sid ← getStr "signal_id" m
    let ts ← getTs "timestamp" m
    let ty ← getSignalType m
    let trt ← getTradeType m
    let sym ← getStr "symbol" m
    let sde ← getSide m
    let ord ← getOrderType m
    let pct ← getDec "amount_capital_percent" m
    let fsz ← getOptDec "fixed_size" m
    let lev ← getOptDec "leverage" m
    let lp ← getOptDec "limit_price" m
    let sp ← getOptDec "stop_price" m
    let tp ← getOptDec "take_profit_price" m
    let sl ← getOptDec "slippage" m
    let nw ← getOptStr "network" m
    let ca ← getOptStr "contract_address" m
    let dx ← getOptStr "dex_id" m
    let ro ← getBoolDef "reduce_only" m
    let msg ← getStr "message" m
    let src ← getOptStr "source" m
    let stn ← getOptStr "strategy_name" m
    let tf ← getOptStr "timeframe" m
    let ex ← getOptStr "exchange" m
    postInit ⟨sid, ts, ty, trt, sym, sde, ord, pct, fsz, lev, lp, sp, tp,
              sl, nw, ca, dx, ro, msg, src, stn, tf, ex⟩
  else
    .error (.typeError "unexpected keyword argument")

/-- Python `TradingSignal.from_dict`: the in-place conversion passes followed by
construction.  The second component is the caller's dict as it stands when
the call returns or raises - the conversion passes MUTATE it. -/
def from_dict (m : InterMap) : Except PyErr TradingSignal × InterMap :=
  match runSteps allConvSteps m with
  | (some e, m') => (.error e, m')
  | (Option.none, m') => (buildSignal m', m')

/-- The dataclass field declarations of `TradingSignal` in source order,
each with whether the declaration carries a default value. -/
def declaredFields : List (String × Bool) :=
  [("signal_id", false), ("timestamp", false), ("type", false),
   ("trade_type", false), ("symbol", false), ("side", false),
   ("order_type", false), ("amount_capital_percent", false),
   ("fixed_size", true), ("leverage", true), ("limit_price", true),
   ("stop_price", true), ("take_profit_price", true), ("slippage", true),
   ("network", true), ("contract_address", true), ("dex_id", true),
   ("reduce_only", true), ("message", false), ("source", true),
   ("strategy_name", true), ("timeframe", true), ("exchange", true)]

/-- Python's `@dataclass` signature rule: once a field with a default has
been declared, every later field must also have a default; otherwise the
decorator raises `TypeError("non-default argument ... follows default
argument")` at class-definition time and the class is never created. -/
def noRequiredAfterDefault : List (String × Bool) → Bool
  | [] => true
  | (_, hasDef) :: t =>
    if hasDef then t.all (fun f => f.2) else noRequiredAfterDefault t

-- Equality of codec results is decidable (used by concrete evaluations).
deriving instance DecidableEq for Except

/-- The parsing of a mantissa (the part of a numeric string before any
exponent marker) with a given sign and exponent value: proof-layer
restatement of the tail of `Decimal.parse`. -/
def mantissaParse (neg : Bool) (body : List Char) (e : Int) : Option Decimal :=
  let ifr := splitAtDot body
  match digitsOfChars ifr.1,
        (match ifr.2 with
         | none => some ([] : List Nat)
         | some f => digitsOfChars f) with
  | some ids, some fds =>
    if ifr.1.isEmpty && (match ifr.2 with | none => true | some f => f.isEmpty)
    then none
    else some (mkParsed neg ids fds e)
  | _, _ => none

/-- The interchange example of the specification (section 6): a well-formed
input map for `from_dict`. -/
def exampleMap : InterMap :=
  [("signal_id", .str "123e4567-e89b-12d3-a456-426614174000"),
   ("timestamp", .str "2024-02-19T12:00:00Z"),
   ("type", .str "TRADE"),
   ("trade_type", .str "PERP"),
   ("symbol", .str "ETH-USDT"),
   ("side", .str "BUY"),
   ("order_type", .str "LIMIT"),
   ("amount_capital_percent", .str "10.0"),
   ("fixed_size", .str "1.5"),
   ("leverage", .str "10.0"),
   ("limit_price", .str "2000.0"),
   ("message", .str "ETH breakout trade")]

/-- Python `Decimal("10.0")`. -/
def dec10 : Decimal := ⟨false, [1, 0, 0], -1⟩

/-- Python `Decimal("1.5")`. -/
def dec1_5 : Decimal := ⟨false, [1, 5], -1⟩

/-- Python `Decimal("2000.0")`. -/
def dec2000 : Decimal := ⟨false, [2, 0, 0, 0, 0], -1⟩

/-- Python `Decimal(0)`. -/
def dec0 : Decimal := ⟨false, [0], 0⟩

/-- Python `Decimal(100)`. -/
def dec100 : Decimal := ⟨false, [1, 0, 0], 0⟩

/-- Python `Decimal("100.01")`. -/
def dec100_01 : Decimal := ⟨false, [1, 0, 0, 0, 1], -2⟩

/-- The record corresponding to the specification's section-6 example, as
direct construction would produce it: `timestamp` an actual (UTC-naive)
datetime, decimals exact. -/
def exSignal : TradingSignal :=
  ⟨"123e4567-e89b-12d3-a456-426614174000", .dt ⟨2024, 2, 19, 12, 0, 0, 0⟩,
   .TRADE, .PERP, "ETH-USDT", .BUY, .LIMIT, dec10, some dec1_5, some dec10,
   some dec2000, Option.none, Option.none, Option.none, Option.none,
   Option.none, Option.none, false, "ETH breakout trade", Option.none,
   Option.none, Option.none, Option.none⟩

/-- A baseline EVM record (valid but for a missing contract address). -/
def evmNoContract : TradingSignal :=
  { exSignal with trade_type := TradeType.EVM, contract_address := Option.none }

/-- The same EVM record with a contract address supplied. -/
def evmWithContract : TradingSignal :=
  { exSignal with trade_type := TradeType.EVM,
                  contract_address := some "0xabc0000000000000000000000000000000000000" }

/-- The section-6 example map with an unknown `order_type` tag. -/
def bogusMap : InterMap := updateKV "order_type" (.str "BOGUS") exampleMap

/-- Success of one enum-conversion pass of `from_dict` on a map: the field
is absent, or holds a tag string whose name lookup succeeds. -/
def enumFieldOkB (name : String) (f : String → Option EnumV) (m : InterMap) : Bool :=
  match lookupKV name m with
  | Option.none => true
  | some (.str t) => (f t).isSome
  | some _ => false

/-- The `reduce_only` value `from_dict` gives a record built from `m`. -/
def roDefault (m : InterMap) : Bool :=
  match lookupKV "reduce_only" m with
  | some (.bool b) => b
  | _ => false

/-- Well-formedness of an optional decimal field of an input map, recorded
against the parsed outcome `o`: the key is absent, or holds a canonical
decimal string (one that reprints identically from its parsed value). -/
def optDecWf (k : String) (m : InterMap) : Option (String × Decimal) → Prop
  | Option.none => lookupKV k m = Option.none
  | some (v, d) =>
    lookupKV k m = some (.str v) ∧ Decimal.parse v = some d ∧ Decimal.str d = v

/-- Well-formedness of an optional string field of an input map. -/
def optStrWf (k : String) (m : InterMap) : Option String → Prop
  | Option.none => lookupKV k m = Option.none
  | some v => lookupKV k m = some (.str v)

/-- Well-formedness of the optional boolean `reduce_only` field. -/
def optBoolWf (k : String) (m : InterMap) : Option Bool → Prop
  | Option.none => lookupKV k m = Option.none
  | some b => lookupKV k m = some (.bool b)

/-- The record `from_dict` actually builds from `exampleMap`: identical to
`exSignal` except that the timestamp stays the raw interchange string. -/
def exDecoded : TradingSignal :=
  { exSignal with timestamp := TsVal.str "2024-02-19T12:00:00Z" }

/-! ## Basic facts about digits and characters -/

theorem charDigit_digitChar {d : Nat} (h : d < 10) :
    charDigit (digitChar d) = some d := by
  interval_cases d <;> decide

theorem digitChar_plain {d : Nat} (h : d < 10) :
    digitChar d ≠ 'e' ∧ digitChar d ≠ 'E' ∧ digitChar d ≠ '.' ∧
      digitChar d ≠ '-' ∧ digitChar d ≠ '+' := by
  interval_cases d <;> decide

theorem ofDigitsNat_append (l : List Nat) (d : Nat) :
    ofDigitsNat (l ++ [d]) = 10 * ofDigitsNat l + d := by
  simp [ofDigitsNat, List.foldl_append]

theorem digitsOfChars_append (a b : List Char) :
    digitsOfChars (a ++ b) =
      (digitsOfChars a).bind (fun da => (digitsOfChars b).map (da ++ ·)) := by
  induction a with
  | nil =>
    cases hb : digitsOfChars b <;> simp [digitsOfChars, hb]
  | cons c t ih =>
    simp only [List.cons_append, digitsOfChars, List.append_eq, ih]
    cases hc : charDigit c with
    | none => simp
    | some d =>
      cases ht : digitsOfChars t with
      | none => simp
      | some ds =>
        cases hb : digitsOfChars b <;> simp [hb]

theorem digitsOfChars_map (ds : List Nat) (h : ∀ x ∈ ds, x < 10) :
    digitsOfChars (ds.map digitChar) = some ds := by
  induction ds with
  | nil => simp [digitsOfChars]
  | cons d t ih =>
    simp only [List.map_cons, digitsOfChars]
    rw [charDigit_digitChar (h d (by simp)), ih (fun x hx => h x (by simp [hx]))]

theorem digitsOfChars_replicate_zero (k : Nat) :
    digitsOfChars (List.replicate k '0') = some (List.replicate k 0) := by
  induction k with
  | zero => simp [digitsOfChars]
  | succ n ih => simp [List.replicate_succ, digitsOfChars, ih, charDigit]

/-! ## Printing and reparsing natural numbers -/

theorem natCharsAux_spec : ∀ fuel n, n ≤ fuel →
    ∃ ds, digitsOfChars (natCharsAux fuel n) = some ds ∧ ofDigitsNat ds = n ∧
      (∀ x ∈ ds, x < 10) := by
  intro fuel
  induction fuel with
  | zero =>
    intro n hn
    have : n = 0 := Nat.le_zero.mp hn
    subst this
    exact ⟨[], by simp [natCharsAux, digitsOfChars], rfl, by simp⟩
  | succ f ih =>
    intro n hn
    by_cases h0 : n = 0
    · subst h0
      exact ⟨[], by simp [natCharsAux, digitsOfChars], rfl, by simp⟩
    · have hdiv : n / 10 ≤ f := by
        have h2 : n / 10 < n := Nat.div_lt_self (Nat.pos_of_ne_zero h0) (by norm_num)
        omega
      obtain ⟨ds, hds, hval, hlt⟩ := ih (n / 10) hdiv
      refine ⟨ds ++ [n % 10], ?_, ?_, ?_⟩
      · rw [show natCharsAux (f + 1) n =
              natCharsAux f (n / 10) ++ [digitChar (n % 10)] by
            simp [natCharsAux, h0]]
        rw [digitsOfChars_append, hds]
        simp [digitsOfChars, charDigit_digitChar (Nat.mod_lt n (by omega))]
      · rw [ofDigitsNat_append, hval]
        omega
      · intro x hx
        rcases List.mem_append.mp hx with hx | hx
        · exact hlt x hx
        · simp at hx; omega

theorem natChars_spec (n : Nat) :
    ∃ ds, digitsOfChars (natChars n) = some ds ∧ ofDigitsNat ds = n ∧
      natChars n ≠ [] := by
  by_cases h0 : n = 0
  · subst h0
    exact ⟨[0], by decide, rfl, by decide⟩
  · obtain ⟨ds, hds, hval, _⟩ := natCharsAux_spec (n + 1) n (by omega)
    refine ⟨ds, ?_, hval, ?_⟩
    · simpa [natChars, h0] using hds
    · simp only [natChars, if_neg h0]
      cases hn : natCharsAux (n + 1) n with
      | nil => simp [natCharsAux, h0] at hn
      | cons c t => simp

theorem parseExpPart_intSignedChars (n : Int) :
    parseExpPart (intSignedChars n) = some n := by
  obtain ⟨ds, hds, hval, hne⟩ := natChars_spec n.natAbs
  have hemp : (natChars n.natAbs).isEmpty = false := by
    cases h : natChars n.natAbs with
    | nil => exact absurd h hne
    | cons a t => rfl
  by_cases hneg : n < 0
  · have h1 : takeSign (intSignedChars n) = (true, natChars n.natAbs) := by
      simp [intSignedChars, takeSign, hneg]
    simp only [parseExpPart, h1, hds, hemp, hval]
    simp only [Bool.false_eq_true, if_false, if_true]
    congr 1
    omega
  · have h1 : takeSign (intSignedChars n) = (false, natChars n.natAbs) := by
      simp [intSignedChars, takeSign, hneg]
    simp only [parseExpPart, h1, hds, hemp, hval]
    simp only [Bool.false_eq_true, if_false]
    congr 1
    omega

/-! ## Splitting lemmas for the parser -/

theorem splitAtExp_no {l : List Char} (h : ∀ c ∈ l, c ≠ 'e' ∧ c ≠ 'E') :
    splitAtExp l = (l, none) := by
  induction l with
  | nil => rfl
  | cons c t ih =>
    have hc := h c (by simp)
    have hno : ¬ (c = 'e' ∨ c = 'E') := not_or.mpr hc
    simp only [splitAtExp, List.append_eq, if_neg hno,
      ih (fun x hx => h x (by simp [hx]))]

theorem splitAtExp_append {l r : List Char} (h : ∀ c ∈ l, c ≠ 'e' ∧ c ≠ 'E') :
    splitAtExp (l ++ 'E' :: r) = (l, some r) := by
  induction l with
  | nil => simp [splitAtExp]
  | cons c t ih =>
    have hc := h c (by simp)
    have hno : ¬ (c = 'e' ∨ c = 'E') := not_or.mpr hc
    simp only [List.cons_append, splitAtExp, List.append_eq, if_neg hno,
      ih (fun x hx => h x (by simp [hx]))]

theorem splitAtDot_no {l : List Char} (h : ∀ c ∈ l, c ≠ '.') :
    splitAtDot l = (l, none) := by
  induction l with
  | nil => rfl
  | cons c t ih =>
    simp only [splitAtDot, List.append_eq, if_neg (h c (by simp)),
      ih (fun x hx => h x (by simp [hx]))]

theorem splitAtDot_append {l r : List Char} (h : ∀ c ∈ l, c ≠ '.') :
    splitAtDot (l ++ '.' :: r) = (l, some r) := by
  induction l with
  | nil => simp [splitAtDot]
  | cons c t ih =>
    simp only [List.cons_append, splitAtDot, List.append_eq, if_neg (h c (by simp)),
      ih (fun x hx => h x (by simp [hx]))]

/-! ## Coefficient normalisation lemmas -/

theorem dropWhile_zero_replicate (k : Nat) (l : List Nat) :
    (List.replicate k 0 ++ l).dropWhile (· = 0) = l.dropWhile (· = 0) := by
  induction k with
  | zero => simp
  | succ n ih => simp [List.replicate_succ, ih]

/-- Normalising the digit string of a well-formed coefficient (possibly with
extra leading zeros) gives the digit string back. -/
theorem normalizeCoeff (k : Nat) (ds : List Nat) (h1 : ds ≠ [])
    (h3 : ds.head? = some 0 → ds = [0]) :
    (if ((List.replicate k 0 ++ ds).dropWhile (· = 0)).isEmpty then [0]
     else (List.replicate k 0 ++ ds).dropWhile (· = 0)) = ds := by
  rw [dropWhile_zero_replicate]
  cases ds with
  | nil => exact absurd rfl h1
  | cons d t =>
    by_cases hd : d = 0
    · subst hd
      have : (0 : Nat) :: t = [0] := h3 rfl
      simp at this
      subst this
      decide
    · rw [List.dropWhile_cons_of_neg (by simpa using hd)]
      rfl

/-! ## The mantissa characters are plain (no sign, dot only where placed) -/

theorem mem_digitChars_plain {ds : List Nat} (h : ∀ x ∈ ds, x < 10)
    {c : Char} (hc : c ∈ ds.map digitChar) :
    c ≠ 'e' ∧ c ≠ 'E' ∧ c ≠ '.' ∧ c ≠ '-' ∧ c ≠ '+' := by
  obtain ⟨d, hd, rfl⟩ := List.mem_map.mp hc
  exact digitChar_plain (h d hd)

/-! ## Reducing `Decimal.parse` on assembled strings -/

theorem takeSign_minus (t : List Char) : takeSign ('-' :: t) = (true, t) := by
  simp [takeSign]

theorem takeSign_plain {c : Char} (t : List Char) (h1 : c ≠ '-') (h2 : c ≠ '+') :
    takeSign (c :: t) = (false, c :: t) := by
  simp [takeSign, h1, h2]

theorem parse_noExp (neg : Bool) (body : List Char)
    (hplain : ∀ c ∈ body, c ≠ 'e' ∧ c ≠ 'E')
    (hhead : ∀ c t, body = c :: t → c ≠ '-' ∧ c ≠ '+') :
    Decimal.parse ⟨(if neg then ['-'] else []) ++ body⟩ = mantissaParse neg body 0 := by
  cases neg with
  | false =>
    have hs : ((if (false : Bool) = true then ['-'] else []) ++ body) = body := by simp
    rw [hs]
    cases body with
    | nil => rfl
    | cons c t =>
      have hc := hhead c t rfl
      have hsp := splitAtExp_no hplain
      simp only [Decimal.parse, mantissaParse, hsp, takeSign_plain t hc.1 hc.2]
  | true =>
    have hs : ((if (true : Bool) = true then ['-'] else []) ++ body) = '-' :: body := by
      simp
    rw [hs]
    have hsp : splitAtExp ('-' :: body) = ('-' :: body, none) :=
      splitAtExp_no (by
        intro c hc
        rcases List.mem_cons.mp hc with rfl | hc
        · decide
        · exact hplain c hc)
    simp only [Decimal.parse, mantissaParse, hsp, takeSign_minus]

theorem parse_withExp (neg : Bool) (body : List Char) (E : Int)
    (hplain : ∀ c ∈ body, c ≠ 'e' ∧ c ≠ 'E')
    (hhead : ∀ c t, body = c :: t → c ≠ '-' ∧ c ≠ '+') :
    Decimal.parse ⟨(if neg then ['-'] else []) ++ body ++ 'E' :: intSignedChars E⟩ =
      mantissaParse neg body E := by
  cases neg with
  | false =>
    have hs : ((if (false : Bool) = true then ['-'] else []) ++ body ++
        'E' :: intSignedChars E) = body ++ 'E' :: intSignedChars E := by simp
    rw [hs]
    have hsp : splitAtExp (body ++ 'E' :: intSignedChars E) =
        (body, some (intSignedChars E)) := splitAtExp_append hplain
    cases body with
    | nil =>
      simp only [Decimal.parse, mantissaParse, List.nil_append] at hsp ⊢
      simp [hsp, parseExpPart_intSignedChars, splitAtDot, digitsOfChars, takeSign,
        intSignedChars]
    | cons c t =>
      have hc := hhead c t rfl
      simp only [Decimal.parse, mantissaParse, hsp, takeSign_plain t hc.1 hc.2,
        parseExpPart_intSignedChars]
  | true =>
    have hs : ((if (true : Bool) = true then ['-'] else []) ++ body ++
        'E' :: intSignedChars E) = ('-' :: body) ++ 'E' :: intSignedChars E := by simp
    rw [hs]
    have hsp : splitAtExp (('-' :: body) ++ 'E' :: intSignedChars E) =
        ('-' :: body, some (intSignedChars E)) :=
      splitAtExp_append (by
        intro c hc
        rcases List.mem_cons.mp hc with rfl | hc
        · decide
        · exact hplain c hc)
    simp only [Decimal.parse, mantissaParse, hsp, takeSign_minus,
      parseExpPart_intSignedChars]

/-! ## The three mantissa shapes produced by `Decimal.str` -/

theorem digitsOfChars_ne_nil {ds : List Nat} (h : ds ≠ []) :
    (ds.map digitChar).isEmpty = false := by
  cases ds with
  | nil => exact absurd rfl h
  | cons a t => rfl

theorem mantissa_shapeX (neg : Bool) (k : Nat) (ds : List Nat) (E : Int)
    (hne : ds ≠ []) (hlt : ∀ x ∈ ds, x < 10)
    (hhead : ds.head? = some 0 → ds = [0]) :
    mantissaParse neg ('0' :: '.' :: (List.replicate k '0' ++ ds.map digitChar)) E =
      some ⟨neg, ds, E - (k + ds.length)⟩ := by
  have hdot : splitAtDot ('0' :: '.' :: (List.replicate k '0' ++ ds.map digitChar)) =
      (['0'], some (List.replicate k '0' ++ ds.map digitChar)) := by
    simp [splitAtDot]
  have hint : digitsOfChars ['0'] = some [0] := by decide
  have hfrac : digitsOfChars (List.replicate k '0' ++ ds.map digitChar) =
      some (List.replicate k 0 ++ ds) := by
    rw [digitsOfChars_append, digitsOfChars_replicate_zero, digitsOfChars_map ds hlt]
    rfl
  simp only [mantissaParse, hdot, hint, hfrac]
  simp only [List.isEmpty_cons, Bool.false_and, if_false, Bool.false_eq_true]
  simp only [mkParsed, Option.some.injEq]
  have hall : ([0] : List Nat) ++ (List.replicate k 0 ++ ds) =
      List.replicate (k + 1) 0 ++ ds := by
    simp [List.replicate_succ]
  rw [Decimal.mk.injEq]
  refine ⟨rfl, ?_, ?_⟩
  · rw [hall]
    exact normalizeCoeff (k + 1) ds hne hhead
  · simp

theorem mantissa_shapeY (neg : Bool) (ds : List Nat) (E : Int)
    (hne : ds ≠ []) (hlt : ∀ x ∈ ds, x < 10)
    (hhead : ds.head? = some 0 → ds = [0]) :
    mantissaParse neg (ds.map digitChar) E = some ⟨neg, ds, E⟩ := by
  have hdot : splitAtDot (ds.map digitChar) = (ds.map digitChar, none) :=
    splitAtDot_no (fun c hc => ((mem_digitChars_plain hlt hc).2.2).1)
  simp only [mantissaParse, hdot, digitsOfChars_map ds hlt]
  simp only [digitsOfChars_ne_nil hne, Bool.false_and, if_false, Bool.false_eq_true]
  simp only [mkParsed, Option.some.injEq]
  rw [Decimal.mk.injEq]
  refine ⟨rfl, ?_, by simp⟩
  simpa using normalizeCoeff 0 ds hne hhead

theorem mantissa_shapeZ (neg : Bool) (ds : List Nat) (p : Nat) (E : Int)
    (hp0 : 0 < p) (hpL : p < ds.length) (hlt : ∀ x ∈ ds, x < 10)
    (hhead : ds.head? = some 0 → ds = [0]) :
    mantissaParse neg
        ((ds.take p).map digitChar ++ '.' :: (ds.drop p).map digitChar) E =
      some ⟨neg, ds, E - ((ds.length - p : Nat) : Int)⟩ := by
  have hne : ds ≠ [] := by
    intro h; subst h; simp at hpL
  have hltT : ∀ x ∈ ds.take p, x < 10 := fun x hx => hlt x (List.take_subset p ds hx)
  have hltD : ∀ x ∈ ds.drop p, x < 10 := fun x hx => hlt x (List.drop_subset p ds hx)
  have hdot : splitAtDot ((ds.take p).map digitChar ++ '.' :: (ds.drop p).map digitChar) =
      ((ds.take p).map digitChar, some ((ds.drop p).map digitChar)) :=
    splitAtDot_append (fun c hc => ((mem_digitChars_plain hltT hc).2.2).1)
  have htne : ds.take p ≠ [] := by
    intro h
    have := congrArg List.length h
    simp [Nat.min_eq_left (Nat.le_of_lt hpL)] at this
    omega
  simp only [mantissaParse, hdot, digitsOfChars_map _ hltT, digitsOfChars_map _ hltD]
  simp only [digitsOfChars_ne_nil htne, Bool.false_and, if_false, Bool.false_eq_true]
  simp only [mkParsed, Option.some.injEq]
  rw [Decimal.mk.injEq]
  refine ⟨rfl, ?_, ?_⟩
  · rw [List.take_append_drop]
    simpa using normalizeCoeff 0 ds hne hhead
  · simp [List.length_drop]

/-! ## The print-parse roundtrip for well-formed decimals -/

theorem body_safe_of_digit_parts {ds : List Nat} (hlt : ∀ x ∈ ds, x < 10)
    {c : Char} (hc : c ∈ ds.map digitChar) :
    (c ≠ 'e' ∧ c ≠ 'E') ∧ c ≠ '-' ∧ c ≠ '+' := by
  have hp := mem_digitChars_plain hlt hc
  exact ⟨⟨hp.1, hp.2.1⟩, hp.2.2.2.1, hp.2.2.2.2⟩

theorem head_safe {body : List Char} (hsafe : ∀ c ∈ body, c ≠ '-' ∧ c ≠ '+') :
    ∀ c t, body = c :: t → c ≠ '-' ∧ c ≠ '+' := by
  intro c t hct
  exact hsafe c (by rw [hct]; simp)

theorem Decimal.parse_str (d : Decimal) (h : d.Wf) :
    Decimal.parse d.str = some d := by
  obtain ⟨neg, ds, e⟩ := d
  obtain ⟨hne, hlt, hhead⟩ := h
  have hL : 0 < ds.length := List.length_pos.mpr hne
  by_cases hNS : e ≤ 0 ∧ e + (ds.length : Int) > -6
  · by_cases hA : e + (ds.length : Int) ≤ 0
    · -- leading "0." with possible padding zeros
      have hstr : Decimal.str ⟨neg, ds, e⟩ =
          ⟨(if neg then ['-'] else []) ++
            ('0' :: '.' :: (List.replicate (-(e + (ds.length : Int))).toNat '0' ++
              ds.map digitChar))⟩ := by
        simp only [Decimal.str, Decimal.digitChars]
        rw [if_pos hNS, if_pos hA, if_pos rfl]
        simp
      have hboth : ∀ c ∈ ('0' :: '.' ::
          (List.replicate (-(e + (ds.length : Int))).toNat '0' ++ ds.map digitChar)),
          (c ≠ 'e' ∧ c ≠ 'E') ∧ c ≠ '-' ∧ c ≠ '+' := by
        intro c hc
        simp only [List.mem_cons, List.mem_append] at hc
        rcases hc with rfl | rfl | hc | hc
        · exact ⟨⟨by decide, by decide⟩, by decide, by decide⟩
        · exact ⟨⟨by decide, by decide⟩, by decide, by decide⟩
        · rw [List.eq_of_mem_replicate hc]
          exact ⟨⟨by decide, by decide⟩, by decide, by decide⟩
        · exact body_safe_of_digit_parts hlt hc
      rw [hstr, parse_noExp neg _ (fun c hc => (hboth c hc).1)
          (head_safe (fun c hc => (hboth c hc).2)),
        mantissa_shapeX neg _ ds 0 hne hlt hhead]
      rw [Option.some.injEq, Decimal.mk.injEq]
      refine ⟨rfl, rfl, ?_⟩
      omega
    · by_cases he0 : e = 0
      · -- pure integer form
        subst he0
        have hstr : Decimal.str ⟨neg, ds, 0⟩ =
            ⟨(if neg then ['-'] else []) ++ ds.map digitChar⟩ := by
          simp only [Decimal.str, Decimal.digitChars]
          rw [if_pos hNS, if_neg hA,
            if_pos (show (ds.length : Int) ≤ 0 + (ds.length : Int) by omega),
            if_pos rfl]
          simp
        have hboth : ∀ c ∈ ds.map digitChar,
            (c ≠ 'e' ∧ c ≠ 'E') ∧ c ≠ '-' ∧ c ≠ '+' :=
          fun c hc => body_safe_of_digit_parts hlt hc
        rw [hstr, parse_noExp neg _ (fun c hc => (hboth c hc).1)
            (head_safe (fun c hc => (hboth c hc).2)),
          mantissa_shapeY neg ds 0 hne hlt hhead]
      · -- fraction strictly inside the digit string
        have heneg : e < 0 := by
          rcases lt_or_eq_of_le hNS.1 with h | h
          · exact h
          · exact absurd h he0
        have hp0 : 0 < (e + (ds.length : Int)).toNat := by omega
        have hpL : (e + (ds.length : Int)).toNat < ds.length := by omega
        have hstr : Decimal.str ⟨neg, ds, e⟩ =
            ⟨(if neg then ['-'] else []) ++
              ((ds.take (e + (ds.length : Int)).toNat).map digitChar ++
                '.' :: (ds.drop (e + (ds.length : Int)).toNat).map digitChar)⟩ := by
          simp only [Decimal.str, Decimal.digitChars]
          rw [if_pos hNS, if_neg hA,
            if_neg (show ¬ ((ds.length : Int) ≤ e + (ds.length : Int)) by omega),
            if_pos rfl]
          simp [List.map_take, List.map_drop]
        have hboth : ∀ c ∈ ((ds.take (e + (ds.length : Int)).toNat).map digitChar ++
            '.' :: (ds.drop (e + (ds.length : Int)).toNat).map digitChar),
            (c ≠ 'e' ∧ c ≠ 'E') ∧ c ≠ '-' ∧ c ≠ '+' := by
          intro c hc
          simp only [List.mem_append, List.mem_cons] at hc
          rcases hc with hc | rfl | hc
          · exact body_safe_of_digit_parts
              (fun x hx => hlt x (List.take_subset _ ds hx)) hc
          · exact ⟨⟨by decide, by decide⟩, by decide, by decide⟩
          · exact body_safe_of_digit_parts
              (fun x hx => hlt x (List.drop_subset _ ds hx)) hc
        rw [hstr, parse_noExp neg _ (fun c hc => (hboth c hc).1)
            (head_safe (fun c hc => (hboth c hc).2)),
          mantissa_shapeZ neg ds _ 0 hp0 hpL hlt hhead]
        rw [Option.some.injEq, Decimal.mk.injEq]
        refine ⟨rfl, rfl, ?_⟩
        omega
  · -- scientific notation
    have hneq : e + (ds.length : Int) ≠ 1 := by
      rcases not_and_or.mp hNS with h | h
      · push_neg at h; omega
      · push_neg at h; omega
    by_cases hL1 : ds.length = 1
    · have hstr : Decimal.str ⟨neg, ds, e⟩ =
          ⟨(if neg then ['-'] else []) ++ ds.map digitChar ++
            'E' :: intSignedChars (e + (ds.length : Int) - 1)⟩ := by
        simp only [Decimal.str, Decimal.digitChars]
        rw [if_neg hNS, if_neg (show ¬ ((1 : Int) ≤ 0) by norm_num),
          if_pos (show (ds.length : Int) ≤ 1 by omega), if_neg hneq]
        simp [hL1]
      have hboth : ∀ c ∈ ds.map digitChar,
          (c ≠ 'e' ∧ c ≠ 'E') ∧ c ≠ '-' ∧ c ≠ '+' :=
        fun c hc => body_safe_of_digit_parts hlt hc
      rw [hstr, parse_withExp neg _ _ (fun c hc => (hboth c hc).1)
          (head_safe (fun c hc => (hboth c hc).2)),
        mantissa_shapeY neg ds _ hne hlt hhead]
      rw [Option.some.injEq, Decimal.mk.injEq]
      refine ⟨rfl, rfl, ?_⟩
      omega
    · have hL2 : 2 ≤ ds.length := by omega
      have hstr : Decimal.str ⟨neg, ds, e⟩ =
          ⟨(if neg then ['-'] else []) ++
            ((ds.take 1).map digitChar ++ '.' :: (ds.drop 1).map digitChar) ++
            'E' :: intSignedChars (e + (ds.length : Int) - 1)⟩ := by
        simp only [Decimal.str, Decimal.digitChars]
        rw [if_neg hNS, if_neg (show ¬ ((1 : Int) ≤ 0) by norm_num),
          if_neg (show ¬ ((ds.length : Int) ≤ 1) by omega), if_neg hneq]
        simp [List.map_take, List.map_drop]
      have hboth : ∀ c ∈ ((ds.take 1).map digitChar ++
          '.' :: (ds.drop 1).map digitChar),
          (c ≠ 'e' ∧ c ≠ 'E') ∧ c ≠ '-' ∧ c ≠ '+' := by
        intro c hc
        simp only [List.mem_append, List.mem_cons] at hc
        rcases hc with hc | rfl | hc
        · exact body_safe_of_digit_parts
            (fun x hx => hlt x (List.take_subset _ ds hx)) hc
        · exact ⟨⟨by decide, by decide⟩, by decide, by decide⟩
        · exact body_safe_of_digit_parts
            (fun x hx => hlt x (List.drop_subset _ ds hx)) hc
      rw [hstr, parse_withExp neg _ _ (fun c hc => (hboth c hc).1)
          (head_safe (fun c hc => (hboth c hc).2)),
        mantissa_shapeZ neg ds 1 _ (by omega) (by omega) hlt hhead]
      rw [Option.some.injEq, Decimal.mk.injEq]
      refine ⟨rfl, rfl, ?_⟩
      omega

/-! ## The integer comparisons agree with the exact rational value -/

theorem Decimal.intLt_iff (n : Int) (d : Decimal) :
    Decimal.intLt n d = true ↔ (n : ℚ) < d.toRat := by
  unfold Decimal.intLt Decimal.toRat
  by_cases h : 0 ≤ d.exp
  · rw [if_pos h]
    have hz : (10 : ℚ) ^ d.exp = (10 : ℚ) ^ (d.exp.toNat : ℕ) := by
      rw [← zpow_natCast]
      congr 1
      omega
    rw [hz]
    simp only [decide_eq_true_eq]
    constructor
    · intro hlt
      exact_mod_cast hlt
    · intro hlt
      exact_mod_cast hlt
  · rw [if_neg h]
    have hz : (10 : ℚ) ^ d.exp = ((10 : ℚ) ^ ((-d.exp).toNat : ℕ))⁻¹ := by
      rw [← zpow_natCast, ← zpow_neg]
      congr 1
      omega
    rw [hz, ← div_eq_mul_inv, lt_div_iff₀ (by positivity)]
    simp only [decide_eq_true_eq]
    constructor
    · intro hlt
      exact_mod_cast hlt
    · intro hlt
      exact_mod_cast hlt

theorem Decimal.leInt_iff (d : Decimal) (n : Int) :
    Decimal.leInt d n = true ↔ d.toRat ≤ (n : ℚ) := by
  unfold Decimal.leInt Decimal.toRat
  by_cases h : 0 ≤ d.exp
  · rw [if_pos h]
    have hz : (10 : ℚ) ^ d.exp = (10 : ℚ) ^ (d.exp.toNat : ℕ) := by
      rw [← zpow_natCast]
      congr 1
      omega
    rw [hz]
    simp only [decide_eq_true_eq]
    constructor
    · intro hle
      exact_mod_cast hle
    · intro hle
      exact_mod_cast hle
  · rw [if_neg h]
    have hz : (10 : ℚ) ^ d.exp = ((10 : ℚ) ^ ((-d.exp).toNat : ℕ))⁻¹ := by
      rw [← zpow_natCast, ← zpow_neg]
      congr 1
      omega
    rw [hz, ← div_eq_mul_inv, div_le_iff₀ (by positivity)]
    simp only [decide_eq_true_eq]
    constructor
    · intro hle
      exact_mod_cast hle
    · intro hle
      exact_mod_cast hle

/-! ## Association-list (dict) lemmas -/

theorem lookupKV_update (k k' : String) (v : PyVal) (m : InterMap) :
    lookupKV k (updateKV k' v m) =
      if k = k' then (lookupKV k m).map (fun _ => v) else lookupKV k m := by
  induction m with
  | nil =>
    simp only [updateKV, lookupKV, Option.map_none']
    split <;> rfl
  | cons a t ih =>
    obtain ⟨ka, va⟩ := a
    by_cases h1 : ka = k'
    · subst h1
      by_cases h2 : ka = k
      · subst h2
        simp [updateKV, lookupKV]
      · simp only [updateKV, if_pos rfl, lookupKV, if_neg h2]
        have h3 : ¬ k = ka := fun hh => h2 hh.symm
        split
        · next hkk =>
          exact absurd hkk h3
        · rfl
    · by_cases h2 : ka = k
      · have h3 : ¬ k = k' := fun hh => h1 (h2.trans hh)
        simp [updateKV, if_neg h1, lookupKV, h2, h3]
      · simp only [updateKV, if_neg h1, lookupKV, if_neg h2, ih]
  
theorem updateKV_keys (k : String) (v : PyVal) (m : InterMap) :
    (updateKV k v m).map Prod.fst = m.map Prod.fst := by
  induction m with
  | nil => rfl
  | cons a t ih =>
    obtain ⟨ka, va⟩ := a
    by_cases h : ka = k
    · simp [updateKV, h]
    · simp [updateKV, h, ih]

theorem lookupKV_eq_none_iff (k : String) (m : InterMap) :
    lookupKV k m = Option.none ↔ k ∉ m.map Prod.fst := by
  induction m with
  | nil => simp [lookupKV]
  | cons a t ih =>
    obtain ⟨ka, va⟩ := a
    by_cases h : ka = k
    · subst h
      simp [lookupKV]
    · have h2 : ¬ k = ka := fun hh => h hh.symm
      simp [lookupKV, h, ih, h2]

theorem keys_filter_subset (p : String × PyVal → Bool) (m : InterMap) {k : String}
    (hk : k ∈ (m.filter p).map Prod.fst) : k ∈ m.map Prod.fst := by
  obtain ⟨kv, hkv, rfl⟩ := List.mem_map.mp hk
  exact List.mem_map.mpr ⟨kv, List.mem_of_mem_filter hkv, rfl⟩

theorem lookupKV_filter (k : String) (m : InterMap)
    (hnd : (m.map Prod.fst).Nodup) :
    lookupKV k (m.filter (fun kv => kv.2 ≠ PyVal.none)) =
      (lookupKV k m).bind
        (fun v => if v = PyVal.none then Option.none else some v) := by
  induction m with
  | nil => rfl
  | cons a t ih =>
    obtain ⟨ka, va⟩ := a
    simp only [List.map_cons, List.nodup_cons] at hnd
    by_cases hv : va = PyVal.none
    · subst hv
      rw [show List.filter (fun kv => decide (kv.2 ≠ PyVal.none))
            ((ka, PyVal.none) :: t) =
          t.filter (fun kv => decide (kv.2 ≠ PyVal.none)) by simp]
      by_cases hk : ka = k
      · subst hk
        rw [show lookupKV ka ((ka, PyVal.none) :: t) = some PyVal.none by
          simp [lookupKV]]
        have : lookupKV ka (t.filter (fun kv => decide (kv.2 ≠ PyVal.none))) =
            Option.none := by
          rw [lookupKV_eq_none_iff]
          intro hmem
          exact hnd.1 (keys_filter_subset _ t hmem)
        rw [this]
        rfl
      · have h2 : ¬ k = ka := fun hh => hk hh.symm
        rw [show lookupKV k ((ka, PyVal.none) :: t) = lookupKV k t by
          simp [lookupKV, hk]]
        exact ih hnd.2
    · rw [show List.filter (fun kv => decide (kv.2 ≠ PyVal.none))
            ((ka, va) :: t) =
          (ka, va) :: t.filter (fun kv => decide (kv.2 ≠ PyVal.none)) by
        simp [hv]]
      by_cases hk : ka = k
      · subst hk
        simp [lookupKV, hv]
      · simp only [lookupKV, if_neg hk]
        exact ih hnd.2

theorem lookupKV_mapConv (k : String) (f : PyVal → PyVal) (m : InterMap) :
    lookupKV k (m.map (fun kv => (kv.1, f kv.2))) = (lookupKV k m).map f := by
  induction m with
  | nil => rfl
  | cons a t ih =>
    obtain ⟨ka, va⟩ := a
    by_cases hk : ka = k
    · simp [lookupKV, hk]
    · simp [lookupKV, hk, ih]

theorem fieldsOf_keys (s : TradingSignal) :
    (fieldsOf s).map Prod.fst = fieldNames := rfl

theorem fieldNames_nodup : fieldNames.Nodup := by decide

/-- Pointwise description of the encoder: the value `to_dict` gives key `k`
is the converted raw attribute, with `None`-valued attributes removed. -/
theorem lookup_to_dict (s : TradingSignal) (k : String) :
    lookupKV k (to_dict s) =
      (lookupKV k (fieldsOf s)).bind
        (fun v => if v = PyVal.none then Option.none else some (convVal v)) := by
  unfold to_dict
  rw [lookupKV_mapConv, lookupKV_filter _ _ (by
    rw [fieldsOf_keys]
    exact fieldNames_nodup)]
  cases lookupKV k (fieldsOf s) with
  | none => rfl
  | some v =>
    by_cases hv : v = PyVal.none
    · simp [hv]
    · simp [hv]

/-! ## Computation lemmas for the conversion passes -/

theorem convEnum_preserve (name k : String) (f : String → Option EnumV)
    (m : InterMap) (hk : k ≠ name) :
    lookupKV k ((convEnum name f m).2) = lookupKV k m := by
  unfold convEnum
  split
  · rfl
  · split
    · simp [lookupKV_update, hk]
    · rfl
  · rfl

theorem convDec_preserve (name k : String) (m : InterMap) (hk : k ≠ name) :
    lookupKV k ((convDec name m).2) = lookupKV k m := by
  unfold convDec
  split
  · rfl
  · rfl
  · split
    · simp [lookupKV_update, hk]
    · rfl

theorem convEnum_keys (name : String) (f : String → Option EnumV) (m : InterMap) :
    ((convEnum name f m).2).map Prod.fst = m.map Prod.fst := by
  unfold convEnum
  split
  · rfl
  · split
    · simp [updateKV_keys]
    · rfl
  · rfl

theorem convDec_keys (name : String) (m : InterMap) :
    ((convDec name m).2).map Prod.fst = m.map Prod.fst := by
  unfold convDec
  split
  · rfl
  · rfl
  · split
    · simp [updateKV_keys]
    · rfl

theorem convEnum_hit {name : String} {f : String → Option EnumV} {m : InterMap}
    {t : String} {e : EnumV} (hl : lookupKV name m = some (.str t))
    (hf : f t = some e) :
    convEnum name f m = (Option.none, updateKV name (.enum e) m) := by
  simp [convEnum, hl, hf]

theorem convEnum_miss {name : String} {f : String → Option EnumV} {m : InterMap}
    (hl : lookupKV name m = Option.none) :
    convEnum name f m = (Option.none, m) := by
  simp [convEnum, hl]

theorem convEnum_bad {name : String} {f : String → Option EnumV} {m : InterMap}
    {t : String} (hl : lookupKV name m = some (.str t))
    (hf : f t = Option.none) :
    convEnum name f m = (some (.keyError (.str t)), m) := by
  simp [convEnum, hl, hf]

theorem convDec_hit {name : String} {m : InterMap} {t : String} {d : Decimal}
    (hl : lookupKV name m = some (.str t)) (hp : Decimal.parse t = some d) :
    convDec name m = (Option.none, updateKV name (.dec d) m) := by
  simp [convDec, hl, pyStr, hp]

theorem convDec_miss {name : String} {m : InterMap}
    (hl : lookupKV name m = Option.none) :
    convDec name m = (Option.none, m) := by
  simp [convDec, hl]

/-! ## Member names agree with member values for the four enums -/

theorem sigValue_fromName {t : String} {e : SignalType}
    (h : SignalType.fromName t = some e) : e.value = t := by
  cases e <;> unfold SignalType.fromName at h <;> split_ifs at h <;>
    simp_all [SignalType.value]

theorem ttValue_fromName {t : String} {e : TradeType}
    (h : TradeType.fromName t = some e) : e.value = t := by
  cases e <;> unfold TradeType.fromName at h <;> split_ifs at h <;>
    simp_all [TradeType.value]

theorem sdValue_fromName {t : String} {e : Side}
    (h : Side.fromName t = some e) : e.value = t := by
  cases e <;> unfold Side.fromName at h <;> split_ifs at h <;>
    simp_all [Side.value]

theorem otValue_fromName {t : String} {e : OrderType}
    (h : OrderType.fromName t = some e) : e.value = t := by
  cases e <;> unfold OrderType.fromName at h <;> split_ifs at h <;>
    simp_all [OrderType.value]

/-! ## Getter lemmas for `buildSignal` -/

theorem getStr_eq {k : String} {m : InterMap} {v : String}
    (h : lookupKV k m = some (.str v)) : getStr k m = .ok v := by
  simp [getStr, h]

theorem getOptStr_some {k : String} {m : InterMap} {v : String}
    (h : lookupKV k m = some (.str v)) : getOptStr k m = .ok (some v) := by
  simp [getOptStr, h]

theorem getOptStr_none {k : String} {m : InterMap}
    (h : lookupKV k m = Option.none) : getOptStr k m = .ok Option.none := by
  simp [getOptStr, h]

theorem getDec_eq {k : String} {m : InterMap} {d : Decimal}
    (h : lookupKV k m = some (.dec d)) : getDec k m = .ok d := by
  simp [getDec, h]

theorem getOptDec_some {k : String} {m : InterMap} {d : Decimal}
    (h : lookupKV k m = some (.dec d)) : getOptDec k m = .ok (some d) := by
  simp [getOptDec, h]

theorem getOptDec_none {k : String} {m : InterMap}
    (h : lookupKV k m = Option.none) : getOptDec k m = .ok Option.none := by
  simp [getOptDec, h]

theorem getBoolDef_some {k : String} {m : InterMap} {b : Bool}
    (h : lookupKV k m = some (.bool b)) : getBoolDef k m = .ok b := by
  simp [getBoolDef, h]

theorem getBoolDef_none {k : String} {m : InterMap}
    (h : lookupKV k m = Option.none) : getBoolDef k m = .ok false := by
  simp [getBoolDef, h]

theorem getTs_str {k : String} {m : InterMap} {v : String}
    (h : lookupKV k m = some (.str v)) : getTs k m = .ok (TsVal.str v) := by
  simp [getTs, h]

theorem getSignalType_eq {m : InterMap} {t : SignalType}
    (h : lookupKV "type" m = some (.enum (.sig t))) : getSignalType m = .ok t := by
  simp [getSignalType, h]

theorem getTradeType_eq {m : InterMap} {t : TradeType}
    (h : lookupKV "trade_type" m = some (.enum (.tt t))) : getTradeType m = .ok t := by
  simp [getTradeType, h]

theorem getSide_eq {m : InterMap} {t : Side}
    (h : lookupKV "side" m = some (.enum (.sd t))) : getSide m = .ok t := by
  simp [getSide, h]

theorem getOrderType_eq {m : InterMap} {t : OrderType}
    (h : lookupKV "order_type" m = some (.enum (.ot t))) : getOrderType m = .ok t := by
  simp [getOrderType, h]

/-! ## Running the conversion passes -/

theorem runSteps_cons_ok {f : ConvStep} {fs : List ConvStep} {m m' : InterMap}
    (hf : f m = (Option.none, m')) :
    runSteps (f :: fs) m = runSteps fs m' := by
  simp [runSteps, hf]

theorem runSteps_cons_err {f : ConvStep} {fs : List ConvStep} {m m' : InterMap}
    {e : PyErr} (hf : f m = (some e, m')) :
    runSteps (f :: fs) m = (some e, m') := by
  simp [runSteps, hf]

theorem runSteps_cons_ok2 {f : ConvStep} {fs : List ConvStep} {m : InterMap}
    (h1 : (f m).1 = Option.none) :
    runSteps (f :: fs) m = runSteps fs (f m).2 := by
  rcases hf : f m with ⟨eo, m2⟩
  rw [hf] at h1
  simp only at h1
  subst h1
  simp [runSteps_cons_ok hf, hf]

theorem from_dict_snd (m : InterMap) :
    (from_dict m).2 = (runSteps allConvSteps m).2 := by
  unfold from_dict
  rcases hr : runSteps allConvSteps m with ⟨eo, m2⟩
  cases eo <;> simp [hr]

theorem from_dict_fst_ok {m m' : InterMap}
    (hr : runSteps allConvSteps m = (Option.none, m')) :
    (from_dict m).1 = buildSignal m' := by
  unfold from_dict
  rw [hr]

theorem from_dict_fst_err {m m' : InterMap} {e : PyErr}
    (hr : runSteps allConvSteps m = (some e, m')) :
    (from_dict m).1 = .error e := by
  unfold from_dict
  rw [hr]

theorem runSteps_preserve_of (k : String) (fs : List ConvStep)
    (hfs : ∀ f ∈ fs, ∀ mm : InterMap, lookupKV k ((f mm).2) = lookupKV k mm) :
    ∀ m : InterMap, lookupKV k ((runSteps fs m).2) = lookupKV k m := by
  induction fs with
  | nil => intro m; rfl
  | cons f t ih =>
    intro m
    rcases hf : f m with ⟨eo, m2⟩
    have hstep : lookupKV k m2 = lookupKV k m := by
      have := hfs f (by simp) m
      rw [hf] at this
      exact this
    cases eo with
    | none =>
      rw [runSteps_cons_ok hf, ih (fun g hg mm => hfs g (by simp [hg]) mm) m2,
        hstep]
    | some e =>
      rw [runSteps_cons_err hf]
      exact hstep

/-! ## Pointwise effect of a successful conversion step -/

theorem convEnum_wf {k0 : String} {f : String → Option EnumV} {m : InterMap}
    {t : String} {e : EnumV} (hl : lookupKV k0 m = some (.str t))
    (hf : f t = some e) :
    (convEnum k0 f m).1 = Option.none ∧
    ∀ k, lookupKV k ((convEnum k0 f m).2) =
      if k = k0 then some (.enum e) else lookupKV k m := by
  rw [convEnum_hit hl hf]
  refine ⟨rfl, fun k => ?_⟩
  rw [lookupKV_update]
  by_cases hk : k = k0
  · subst hk
    rw [if_pos rfl, if_pos rfl, hl]
    rfl
  · rw [if_neg hk, if_neg hk]

theorem convDec_wf {k0 : String} {m : InterMap} {o : Option (String × Decimal)}
    (h : optDecWf k0 m o) :
    (convDec k0 m).1 = Option.none ∧
    ∀ k, lookupKV k ((convDec k0 m).2) =
      if k = k0 then o.map (fun vd => PyVal.dec vd.2) else lookupKV k m := by
  cases o with
  | none =>
    rw [convDec_miss h]
    refine ⟨rfl, fun k => ?_⟩
    by_cases hk : k = k0
    · subst hk
      rw [if_pos rfl, h]
      rfl
    · rw [if_neg hk]
  | some vd =>
    obtain ⟨v, d⟩ := vd
    obtain ⟨hl, hp, _⟩ := h
    rw [convDec_hit hl hp]
    refine ⟨rfl, fun k => ?_⟩
    rw [lookupKV_update]
    by_cases hk : k = k0
    · subst hk
      rw [if_pos rfl, if_pos rfl, hl]
      rfl
    · rw [if_neg hk, if_neg hk]

theorem convEnum_ok_of {name : String} {f : String → Option EnumV}
    {m : InterMap} (h : enumFieldOkB name f m = true) :
    (convEnum name f m).1 = Option.none := by
  cases hl : lookupKV name m with
  | none => rw [convEnum_miss hl]
  | some v =>
    cases v with
    | str t =>
      cases hf : f t with
      | some e => rw [convEnum_hit hl hf]
      | none =>
        unfold enumFieldOkB at h
        rw [hl] at h
        simp [hf] at h
    | bool b =>
      unfold enumFieldOkB at h
      rw [hl] at h
      simp at h
    | none =>
      unfold enumFieldOkB at h
      rw [hl] at h
      simp at h
    | dec d =>
      unfold enumFieldOkB at h
      rw [hl] at h
      simp at h
    | dt t =>
      unfold enumFieldOkB at h
      rw [hl] at h
      simp at h
    | enum e =>
      unfold enumFieldOkB at h
      rw [hl] at h
      simp at h

/-! ## Getter lemmas against optional outcomes -/

theorem getOptDec_opt {k : String} {m : InterMap} {o : Option (String × Decimal)}
    (h : lookupKV k m = o.map (fun vd => PyVal.dec vd.2)) :
    getOptDec k m = .ok (o.map Prod.snd) := by
  cases o with
  | none => exact getOptDec_none h
  | some vd => exact getOptDec_some h

theorem getOptStr_opt {k : String} {m : InterMap} {o : Option String}
    (h : lookupKV k m = o.map PyVal.str) :
    getOptStr k m = .ok o := by
  cases o with
  | none => exact getOptStr_none h
  | some v => exact getOptStr_some h

theorem getBoolDef_opt {k : String} {m : InterMap} {o : Option Bool}
    (h : lookupKV k m = o.map PyVal.bool) :
    getBoolDef k m = .ok (o.getD false) := by
  cases o with
  | none => exact getBoolDef_none h
  | some b => exact getBoolDef_some h

theorem all_map_fst (m : InterMap) (p : String → Bool) :
    m.all (fun kv => p kv.1) = (m.map Prod.fst).all p := by
  induction m with
  | nil => rfl
  | cons a t ih => simp [List.all_cons, ih]

theorem allKeysKnown_of_keys {m1 m2 : InterMap}
    (h : m1.map Prod.fst = m2.map Prod.fst) :
    allKeysKnown m1 = allKeysKnown m2 := by
  unfold allKeysKnown
  rw [all_map_fst, all_map_fst, h]

/-! ## Per-step existential forms used to thread the conversion passes -/

theorem convEnum_step {k0 : String} {f : String → Option EnumV} {m : InterMap}
    {t : String} {e : EnumV} (hl : lookupKV k0 m = some (.str t))
    (hf : f t = some e) :
    ∃ m', convEnum k0 f m = (Option.none, m') ∧
      (∀ k, lookupKV k m' = if k = k0 then some (.enum e) else lookupKV k m) ∧
      m'.map Prod.fst = m.map Prod.fst := by
  refine ⟨updateKV k0 (.enum e) m, convEnum_hit hl hf, fun k => ?_,
    updateKV_keys _ _ _⟩
  rw [lookupKV_update]
  by_cases hk : k = k0
  · subst hk
    rw [if_pos rfl, if_pos rfl, hl]
    rfl
  · rw [if_neg hk, if_neg hk]

theorem convDec_step {k0 : String} {m : InterMap} {o : Option (String × Decimal)}
    (h : optDecWf k0 m o) :
    ∃ m', convDec k0 m = (Option.none, m') ∧
      (∀ k, lookupKV k m' =
        if k = k0 then o.map (fun vd => PyVal.dec vd.2) else lookupKV k m) ∧
      m'.map Prod.fst = m.map Prod.fst := by
  cases o with
  | none =>
    refine ⟨m, convDec_miss h, fun k => ?_, rfl⟩
    by_cases hk : k = k0
    · subst hk
      rw [if_pos rfl, h]
      rfl
    · rw [if_neg hk]
  | some vd =>
    obtain ⟨v, d⟩ := vd
    obtain ⟨hl, hp, _⟩ := h
    refine ⟨updateKV k0 (.dec d) m, convDec_hit hl hp, fun k => ?_,
      updateKV_keys _ _ _⟩
    rw [lookupKV_update]
    by_cases hk : k = k0
    · subst hk
      rw [if_pos rfl, if_pos rfl, hl]
      rfl
    · rw [if_neg hk, if_neg hk]

theorem optDecWf_of_lookup {k : String} {m m' : InterMap}
    {o : Option (String × Decimal)} (h : optDecWf k m o)
    (he : lookupKV k m' = lookupKV k m) : optDecWf k m' o := by
  cases o with
  | none => exact he.trans h
  | some vd =>
    obtain ⟨v, d⟩ := vd
    exact ⟨he.trans h.1, h.2.1, h.2.2⟩

theorem optStrWf_of_lookup {k : String} {m m' : InterMap} {o : Option String}
    (h : optStrWf k m o) (he : lookupKV k m' = lookupKV k m) :
    optStrWf k m' o := by
  cases o with
  | none => exact he.trans h
  | some v => exact he.trans h

theorem optBoolWf_of_lookup {k : String} {m m' : InterMap} {o : Option Bool}
    (h : optBoolWf k m o) (he : lookupKV k m' = lookupKV k m) :
    optBoolWf k m' o := by
  cases o with
  | none => exact he.trans h
  | some b => exact he.trans h

theorem allKeysKnown_of_mem {m : InterMap}
    (hKeys : ∀ kv ∈ m, kv.1 ∈ fieldNames) : allKeysKnown m = true := by
  unfold allKeysKnown
  rw [List.all_eq_true]
  intro kv hkv
  exact List.elem_eq_true_of_mem (hKeys kv hkv)

theorem optStrWf_lookup {k : String} {m : InterMap} {o : Option String}
    (h : optStrWf k m o) : lookupKV k m = o.map PyVal.str := by
  cases o with
  | none => exact h
  | some v => exact h

theorem optBoolWf_lookup {k : String} {m : InterMap} {o : Option Bool}
    (h : optBoolWf k m o) : lookupKV k m = o.map PyVal.bool := by
  cases o with
  | none => exact h
  | some b => exact h

theorem exceptBind_ok {α β : Type} (a : α) (f : α → Except PyErr β) :
    (Except.ok a >>= f) = f a := rfl

/-- C2 (amended).  For every well-formed interchange map `m` (all keys are
field names; the required fields are present with valid enum tags, a
canonical decimal percent in range, string values for the string fields;
each optional field is absent or well-typed with canonical decimal strings;
the conditional invariants hold), decoding succeeds, and re-encoding the
decoded record reproduces the same textual value for every key of `m` and
the same key set EXCEPT that the key `reduce_only` is always present in the
output - with `m`'s boolean when `m` had one, and `False` otherwise.
(The claim as frozen - "absent fields stay absent, no keys added" - fails
on `reduce_only`; see the counterexample.) -/
theorem c2_encode_decode_amended
    (m : InterMap) (sig : TradingSignal)
    (sid tsv sym msg vty vtt vsd vot vp : String)
    (ety : SignalType) (ett : TradeType) (esd : Side) (eot : OrderType)
    (dp : Decimal)
    (fsO levO lpO spO tpO slO : Option (String × Decimal))
    (nwO caO dxO srcO stnO tfO exO : Option String)
    (roO : Option Bool)
    (hsig : sig = ⟨sid, .str tsv, ety, ett, sym, esd, eot, dp,
      fsO.map Prod.snd, levO.map Prod.snd, lpO.map Prod.snd,
      spO.map Prod.snd, tpO.map Prod.snd, slO.map Prod.snd, nwO, caO, dxO,
      roO.getD false, msg, srcO, stnO, tfO, exO⟩)
    (hKeys : ∀ kv ∈ m, kv.1 ∈ fieldNames)
    (hSid : lookupKV "signal_id" m = some (.str sid))
    (hTs : lookupKV "timestamp" m = some (.str tsv))
    (hSym : lookupKV "symbol" m = some (.str sym))
    (hMsg : lookupKV "message" m = some (.str msg))
    (hTy : lookupKV "type" m = some (.str vty))
    (hTyN : SignalType.fromName vty = some ety)
    (hTt : lookupKV "trade_type" m = some (.str vtt))
    (hTtN : TradeType.fromName vtt = some ett)
    (hSd : lookupKV "side" m = some (.str vsd))
    (hSdN : Side.fromName vsd = some esd)
    (hOt : lookupKV "order_type" m = some (.str vot))
    (hOtN : OrderType.fromName vot = some eot)
    (hP : optDecWf "amount_capital_percent" m (some (vp, dp)))
    (hPrange : Decimal.intLt 0 dp = true ∧ Decimal.leInt dp 100 = true)
    (hFs : optDecWf "fixed_size" m fsO)
    (hLev : optDecWf "leverage" m levO)
    (hLp : optDecWf "limit_price" m lpO)
    (hSp : optDecWf "stop_price" m spO)
    (hTpp : optDecWf "take_profit_price" m tpO)
    (hSl : optDecWf "slippage" m slO)
    (hNw : optStrWf "network" m nwO)
    (hCa : optStrWf "contract_address" m caO)
    (hDx : optStrWf "dex_id" m dxO)
    (hSrc : optStrWf "source" m srcO)
    (hStn : optStrWf "strategy_name" m stnO)
    (hTf : optStrWf "timeframe" m tfO)
    (hEx : optStrWf "exchange" m exO)
    (hRo : optBoolWf "reduce_only" m roO)
    (hEvm : ett = TradeType.EVM → strFalsy caO = false)
    (hLim : eot = OrderType.LIMIT → lpO ≠ Option.none)
    (hStop : eot = OrderType.STOP_LOSS → spO ≠ Option.none)
    (hTpr : eot = OrderType.TAKE_PROFIT → tpO ≠ Option.none) :
    (from_dict m).1 = .ok sig ∧
    (∀ k, k ≠ "reduce_only" → lookupKV k (to_dict sig) = lookupKV k m) ∧
    lookupKV "reduce_only" (to_dict sig) = some (.bool (roO.getD false)) := by
  subst hsig
  obtain ⟨n1, e1, L1, K1⟩ := @convEnum_step "type"
    (fun t => (SignalType.fromName t).map EnumV.sig) m vty (EnumV.sig ety)
    hTy (by simp [hTyN])
  have hTt1 : lookupKV "trade_type" n1 = some (.str vtt) := by
    rw [L1]
    simpa using hTt
  obtain ⟨n2, e2, L2, K2⟩ := @convEnum_step "trade_type"
    (fun t => (TradeType.fromName t).map EnumV.tt) n1 vtt (EnumV.tt ett)
    hTt1 (by simp [hTtN])
  have hSd2 : lookupKV "side" n2 = some (.str vsd) := by
    rw [L2, L1]
    simpa using hSd
  obtain ⟨n3, e3, L3, K3⟩ := @convEnum_step "side"
    (fun t => (Side.fromName t).map EnumV.sd) n2 vsd (EnumV.sd esd)
    hSd2 (by simp [hSdN])
  have hOt3 : lookupKV "order_type" n3 = some (.str vot) := by
    rw [L3, L2, L1]
    simpa using hOt
  obtain ⟨n4, e4, L4, K4⟩ := @convEnum_step "order_type"
    (fun t => (OrderType.fromName t).map EnumV.ot) n3 vot (EnumV.ot eot)
    hOt3 (by simp [hOtN])
  have hP4 : optDecWf "amount_capital_percent" n4 (some (vp, dp)) :=
    optDecWf_of_lookup hP (by rw [L4, L3, L2, L1]; simp)
  obtain ⟨n5, e5, L5, K5⟩ := convDec_step hP4
  have hFs5 : optDecWf "fixed_size" n5 fsO :=
    optDecWf_of_lookup hFs (by rw [L5, L4, L3, L2, L1]; simp)
  obtain ⟨n6, e6, L6, K6⟩ := convDec_step hFs5
  have hLev6 : optDecWf "leverage" n6 levO :=
    optDecWf_of_lookup hLev (by rw [L6, L5, L4, L3, L2, L1]; simp)
  obtain ⟨n7, e7, L7, K7⟩ := convDec_step hLev6
  have hLp7 : optDecWf "limit_price" n7 lpO :=
    optDecWf_of_lookup hLp (by rw [L7, L6, L5, L4, L3, L2, L1]; simp)
  obtain ⟨n8, e8, L8, K8⟩ := convDec_step hLp7
  have hSp8 : optDecWf "stop_price" n8 spO :=
    optDecWf_of_lookup hSp (by rw [L8, L7, L6, L5, L4, L3, L2, L1]; simp)
  obtain ⟨n9, e9, L9, K9⟩ := convDec_step hSp8
  have hTp9 : optDecWf "take_profit_price" n9 tpO :=
    optDecWf_of_lookup hTpp (by rw [L9, L8, L7, L6, L5, L4, L3, L2, L1]; simp)
  obtain ⟨n10, e10, L10, K10⟩ := convDec_step hTp9
  have hSl10 : optDecWf "slippage" n10 slO :=
    optDecWf_of_lookup hSl (by rw [L10, L9, L8, L7, L6, L5, L4, L3, L2, L1]; simp)
  obtain ⟨n11, e11, L11, K11⟩ := convDec_step hSl10
  have eAll : runSteps allConvSteps m = (Option.none, n11) := by
    unfold allConvSteps
    rw [runSteps_cons_ok e1, runSteps_cons_ok e2, runSteps_cons_ok e3,
      runSteps_cons_ok e4, runSteps_cons_ok e5, runSteps_cons_ok e6,
      runSteps_cons_ok e7, runSteps_cons_ok e8, runSteps_cons_ok e9,
      runSteps_cons_ok e10, runSteps_cons_ok e11]
    rfl
  have hKeysAll : n11.map Prod.fst = m.map Prod.fst := by
    rw [K11, K10, K9, K8, K7, K6, K5, K4, K3, K2, K1]
  have q1 : lookupKV "signal_id" n11 = some (.str sid) := by
    rw [L11, L10, L9, L8, L7, L6, L5, L4, L3, L2, L1]
    simpa using hSid
  have q2 : lookupKV "timestamp" n11 = some (.str tsv) := by
    rw [L11, L10, L9, L8, L7, L6, L5, L4, L3, L2, L1]
    simpa using hTs
  have q3 : lookupKV "type" n11 = some (.enum (.sig ety)) := by
    rw [L11, L10, L9, L8, L7, L6, L5, L4, L3, L2, L1]
    simp
  have q4 : lookupKV "trade_type" n11 = some (.enum (.tt ett)) := by
    rw [L11, L10, L9, L8, L7, L6, L5, L4, L3, L2]
    simp
  have q5 : lookupKV "symbol" n11 = some (.str sym) := by
    rw [L11, L10, L9, L8, L7, L6, L5, L4, L3, L2, L1]
    simpa using hSym
  have q6 : lookupKV "side" n11 = some (.enum (.sd esd)) := by
    rw [L11, L10, L9, L8, L7, L6, L5, L4, L3]
    simp
  have q7 : lookupKV "order_type" n11 = some (.enum (.ot eot)) := by
    rw [L11, L10, L9, L8, L7, L6, L5, L4]
    simp
  have q8 : lookupKV "amount_capital_percent" n11 = some (.dec dp) := by
    rw [L11, L10, L9, L8, L7, L6, L5]
    simp
  have q9 : lookupKV "fixed_size" n11 =
      fsO.map (fun vd => PyVal.dec vd.2) := by
    rw [L11, L10, L9, L8, L7, L6]
    simp
  have q10 : lookupKV "leverage" n11 =
      levO.map (fun vd => PyVal.dec vd.2) := by
    rw [L11, L10, L9, L8, L7]
    simp
  have q11 : lookupKV "limit_price" n11 =
      lpO.map (fun vd => PyVal.dec vd.2) := by
    rw [L11, L10, L9, L8]
    simp
  have q12 : lookupKV "stop_price" n11 =
      spO.map (fun vd => PyVal.dec vd.2) := by
    rw [L11, L10, L9]
    simp
  have q13 : lookupKV "take_profit_price" n11 =
      tpO.map (fun vd => PyVal.dec vd.2) := by
    rw [L11, L10]
    simp
  have q14 : lookupKV "slippage" n11 =
      slO.map (fun vd => PyVal.dec vd.2) := by
    rw [L11]
    simp
  have q15 : lookupKV "network" n11 = nwO.map PyVal.str := by
    rw [L11, L10, L9, L8, L7, L6, L5, L4, L3, L2, L1]
    simpa using optStrWf_lookup hNw
  have q16 : lookupKV "contract_address" n11 = caO.map PyVal.str := by
    rw [L11, L10, L9, L8, L7, L6, L5, L4, L3, L2, L1]
    simpa using optStrWf_lookup hCa
  have q17 : lookupKV "dex_id" n11 = dxO.map PyVal.str := by
    rw [L11, L10, L9, L8, L7, L6, L5, L4, L3, L2, L1]
    simpa using optStrWf_lookup hDx
  have q18 : lookupKV "reduce_only" n11 = roO.map PyVal.bool := by
    rw [L11, L10, L9, L8, L7, L6, L5, L4, L3, L2, L1]
    simpa using optBoolWf_lookup hRo
  have q19 : lookupKV "message" n11 = some (.str msg) := by
    rw [L11, L10, L9, L8, L7, L6, L5, L4, L3, L2, L1]
    simpa using hMsg
  have q20 : lookupKV "source" n11 = srcO.map PyVal.str := by
    rw [L11, L10, L9, L8, L7, L6, L5, L4, L3, L2, L1]
    simpa using optStrWf_lookup hSrc
  have q21 : lookupKV "strategy_name" n11 = stnO.map PyVal.str := by
    rw [L11, L10, L9, L8, L7, L6, L5, L4, L3, L2, L1]
    simpa using optStrWf_lookup hStn
  have q22 : lookupKV "timeframe" n11 = tfO.map PyVal.str := by
    rw [L11, L10, L9, L8, L7, L6, L5, L4, L3, L2, L1]
    simpa using optStrWf_lookup hTf
  have q23 : lookupKV "exchange" n11 = exO.map PyVal.str := by
    rw [L11, L10, L9, L8, L7, L6, L5, L4, L3, L2, L1]
    simpa using optStrWf_lookup hEx
  have hKn : allKeysKnown n11 = true := by
    rw [allKeysKnown_of_keys hKeysAll]
    exact allKeysKnown_of_mem hKeys
  have hpost : postInit ⟨sid, .str tsv, ety, ett, sym, esd, eot, dp,
      fsO.map Prod.snd, levO.map Prod.snd, lpO.map Prod.snd,
      spO.map Prod.snd, tpO.map Prod.snd, slO.map Prod.snd, nwO, caO, dxO,
      roO.getD false, msg, srcO, stnO, tfO, exO⟩ = .ok ⟨sid, .str tsv, ety,
      ett, sym, esd, eot, dp, fsO.map Prod.snd, levO.map Prod.snd,
      lpO.map Prod.snd, spO.map Prod.snd, tpO.map Prod.snd,
      slO.map Prod.snd, nwO, caO, dxO, roO.getD false, msg, srcO, stnO, tfO,
      exO⟩ := by
    unfold postInit
    rw [if_neg (not_not_intro hPrange)]
    rw [if_neg (show ¬ (ett = TradeType.EVM ∧ strFalsy caO = true) by
      rintro ⟨hEq, hFal⟩
      rw [hEvm hEq] at hFal
      exact absurd hFal (by simp))]
    rw [if_neg (show ¬ (eot = OrderType.LIMIT ∧
        lpO.map Prod.snd = Option.none) by
      rintro ⟨hEq, hN⟩
      exact hLim hEq (Option.map_eq_none'.mp hN))]
    rw [if_neg (show ¬ (eot = OrderType.STOP_LOSS ∧
        spO.map Prod.snd = Option.none) by
      rintro ⟨hEq, hN⟩
      exact hStop hEq (Option.map_eq_none'.mp hN))]
    rw [if_neg (show ¬ (eot = OrderType.TAKE_PROFIT ∧
        tpO.map Prod.snd = Option.none) by
      rintro ⟨hEq, hN⟩
      exact hTpr hEq (Option.map_eq_none'.mp hN))]
  refine ⟨?_, ?_, ?_⟩
  · rw [from_dict_fst_ok eAll]
    unfold buildSignal
    rw [hKn]
    rw [getStr_eq q1, getTs_str q2, getSignalType_eq q3, getTradeType_eq q4,
      getStr_eq q5, getSide_eq q6, getOrderType_eq q7, getDec_eq q8,
      getOptDec_opt q9, getOptDec_opt q10, getOptDec_opt q11,
      getOptDec_opt q12, getOptDec_opt q13, getOptDec_opt q14,
      getOptStr_opt q15, getOptStr_opt q16, getOptStr_opt q17,
      getBoolDef_opt q18, getStr_eq q19, getOptStr_opt q20,
      getOptStr_opt q21, getOptStr_opt q22, getOptStr_opt q23]
    simp only [if_pos rfl, exceptBind_ok]
    exact hpost
  · intro k hk
    by_cases hkf : k ∈ fieldNames
    · simp only [fieldNames, List.mem_cons, List.not_mem_nil, or_false] at hkf
      rcases hkf with rfl | rfl | rfl | rfl | rfl | rfl | rfl | rfl | rfl |
        rfl | rfl | rfl | rfl | rfl | rfl | rfl | rfl | rfl | rfl | rfl |
        rfl | rfl | rfl
      · rw [lookup_to_dict]
        simp [fieldsOf, lookupKV, convVal, hSid]
      · rw [lookup_to_dict]
        simp [fieldsOf, lookupKV, convVal, tsPy, hTs]
      · rw [lookup_to_dict]
        simp [fieldsOf, lookupKV, convVal, EnumV.value, hTy,
          sigValue_fromName hTyN]
      · rw [lookup_to_dict]
        simp [fieldsOf, lookupKV, convVal, EnumV.value, hTt,
          ttValue_fromName hTtN]
      · rw [lookup_to_dict]
        simp [fieldsOf, lookupKV, convVal, hSym]
      · rw [lookup_to_dict]
        simp [fieldsOf, lookupKV, convVal, EnumV.value, hSd,
          sdValue_fromName hSdN]
      · rw [lookup_to_dict]
        simp [fieldsOf, lookupKV, convVal, EnumV.value, hOt,
          otValue_fromName hOtN]
      · obtain ⟨hPa, hPb, hPc⟩ := hP
        rw [lookup_to_dict]
        simp [fieldsOf, lookupKV, convVal, hPa, hPc]
      · rw [lookup_to_dict]
        cases fsO with
        | none =>
          have hx : lookupKV "fixed_size" m = Option.none := hFs
          simp [fieldsOf, lookupKV, optDecPy, hx]
        | some vd =>
          obtain ⟨v, d⟩ := vd
          obtain ⟨ha, hb, hc⟩ := hFs
          simp [fieldsOf, lookupKV, optDecPy, convVal, ha, hc]
      · rw [lookup_to_dict]
        cases levO with
        | none =>
          have hx : lookupKV "leverage" m = Option.none := hLev
          simp [fieldsOf, lookupKV, optDecPy, hx]
        | some vd =>
          obtain ⟨v, d⟩ := vd
          obtain ⟨ha, hb, hc⟩ := hLev
          simp [fieldsOf, lookupKV, optDecPy, convVal, ha, hc]
      · rw [lookup_to_dict]
        cases lpO with
        | none =>
          have hx : lookupKV "limit_price" m = Option.none := hLp
          simp [fieldsOf, lookupKV, optDecPy, hx]
        | some vd =>
          obtain ⟨v, d⟩ := vd
          obtain ⟨ha, hb, hc⟩ := hLp
          simp [fieldsOf, lookupKV, optDecPy, convVal, ha, hc]
      · rw [lookup_to_dict]
        cases spO with
        | none =>
          have hx : lookupKV "stop_price" m = Option.none := hSp
          simp [fieldsOf, lookupKV, optDecPy, hx]
        | some vd =>
          obtain ⟨v, d⟩ := vd
          obtain ⟨ha, hb, hc⟩ := hSp
          simp [fieldsOf, lookupKV, optDecPy, convVal, ha, hc]
      · rw [lookup_to_dict]
        cases tpO with
        | none =>
          have hx : lookupKV "take_profit_price" m = Option.none := hTpp
          simp [fieldsOf, lookupKV, optDecPy, hx]
        | some vd =>
          obtain ⟨v, d⟩ := vd
          obtain ⟨ha, hb, hc⟩ := hTpp
          simp [fieldsOf, lookupKV, optDecPy, convVal, ha, hc]
      · rw [lookup_to_dict]
        cases slO with
        | none =>
          have hx : lookupKV "slippage" m = Option.none := hSl
          simp [fieldsOf, lookupKV, optDecPy, hx]
        | some vd =>
          obtain ⟨v, d⟩ := vd
          obtain ⟨ha, hb, hc⟩ := hSl
          simp [fieldsOf, lookupKV, optDecPy, convVal, ha, hc]
      · rw [lookup_to_dict]
        cases nwO with
        | none =>
          have hx : lookupKV "network" m = Option.none := hNw
          simp [fieldsOf, lookupKV, optStrPy, hx]
        | some v =>
          have hx : lookupKV "network" m = some (.str v) := hNw
          simp [fieldsOf, lookupKV, optStrPy, convVal, hx]
      · rw [lookup_to_dict]
        cases caO with
        | none =>
          have hx : lookupKV "contract_address" m = Option.none := hCa
          simp [fieldsOf, lookupKV, optStrPy, hx]
        | some v =>
          have hx : lookupKV "contract_address" m = some (.str v) := hCa
          simp [fieldsOf, lookupKV, optStrPy, convVal, hx]
      · rw [lookup_to_dict]
        cases dxO with
        | none =>
          have hx : lookupKV "dex_id" m = Option.none := hDx
          simp [fieldsOf, lookupKV, optStrPy, hx]
        | some v =>
          have hx : lookupKV "dex_id" m = some (.str v) := hDx
          simp [fieldsOf, lookupKV, optStrPy, convVal, hx]
      · exact absurd rfl hk
      · rw [lookup_to_dict]
        simp [fieldsOf, lookupKV, convVal, hMsg]
      · rw [lookup_to_dict]
        cases srcO with
        | none =>
          have hx : lookupKV "source" m = Option.none := hSrc
          simp [fieldsOf, lookupKV, optStrPy, hx]
        | some v =>
          have hx : lookupKV "source" m = some (.str v) := hSrc
          simp [fieldsOf, lookupKV, optStrPy, convVal, hx]
      · rw [lookup_to_dict]
        cases stnO with
        | none =>
          have hx : lookupKV "strategy_name" m = Option.none := hStn
          simp [fieldsOf, lookupKV, optStrPy, hx]
        | some v =>
          have hx : lookupKV "strategy_name" m = some (.str v) := hStn
          simp [fieldsOf, lookupKV, optStrPy, convVal, hx]
      · rw [lookup_to_dict]
        cases tfO with
        | none =>
          have hx : lookupKV "timeframe" m = Option.none := hTf
          simp [fieldsOf, lookupKV, optStrPy, hx]
        | some v =>
          have hx : lookupKV "timeframe" m = some (.str v) := hTf
          simp [fieldsOf, lookupKV, optStrPy, convVal, hx]
      · rw [lookup_to_dict]
        cases exO with
        | none =>
          have hx : lookupKV "exchange" m = Option.none := hEx
          simp [fieldsOf, lookupKV, optStrPy, hx]
        | some v =>
          have hx : lookupKV "exchange" m = some (.str v) := hEx
          simp [fieldsOf, lookupKV, optStrPy, convVal, hx]
    · have hL : lookupKV k (to_dict ⟨sid, .str tsv, ety, ett, sym, esd, eot,
          dp, fsO.map Prod.snd, levO.map Prod.snd, lpO.map Prod.snd,
          spO.map Prod.snd, tpO.map Prod.snd, slO.map Prod.snd, nwO, caO,
          dxO, roO.getD false, msg, srcO, stnO, tfO, exO⟩) = Option.none := by
        rw [lookup_to_dict,
          (lookupKV_eq_none_iff k _).mpr (by rw [fieldsOf_keys]; exact hkf)]
        rfl
      have hR : lookupKV k m = Option.none := (lookupKV_eq_none_iff k m).mpr
        (by
          intro hmem
          obtain ⟨kv, hkv, rfl⟩ := List.mem_map.mp hmem
          exact hkf (hKeys kv hkv))
      rw [hL, hR]
  · rw [lookup_to_dict]
    simp [fieldsOf, lookupKV, convVal]

/-- Witness for C2 (amended): the section-6 example map decodes and
re-encodes as described. -/
theorem c2_encode_decode_amended_witness :
    (from_dict exampleMap).1 = .ok exDecoded ∧
    (∀ k, k ≠ "reduce_only" →
      lookupKV k (to_dict exDecoded) = lookupKV k exampleMap) ∧
    lookupKV "reduce_only" (to_dict exDecoded) = some (.bool false) :=
  c2_encode_decode_amended exampleMap exDecoded
    "123e4567-e89b-12d3-a456-426614174000" "2024-02-19T12:00:00Z"
    "ETH-USDT" "ETH breakout trade" "TRADE" "PERP" "BUY" "LIMIT" "10.0"
    SignalType.TRADE TradeType.PERP Side.BUY OrderType.LIMIT dec10
    (some ("1.5", dec1_5)) (some ("10.0", dec10)) (some ("2000.0", dec2000))
    Option.none Option.none Option.none
    Option.none Option.none Option.none Option.none Option.none Option.none
    Option.none Option.none
    rfl (by decide) rfl rfl rfl rfl rfl rfl rfl rfl rfl rfl rfl rfl
    ⟨rfl, rfl, rfl⟩ (by decide) ⟨rfl, rfl, rfl⟩ ⟨rfl, rfl, rfl⟩
    ⟨rfl, rfl, rfl⟩ rfl rfl rfl rfl rfl rfl rfl rfl rfl rfl rfl
    (by decide) (by decide) (by decide) (by decide)

/-- Counterexample to C2 as frozen: the well-formed section-6 example map
has no `reduce_only` key, yet encoding its decoded record produces a map
with a `reduce_only` key - a key is added, so the key sets differ. -/
theorem c2_counterexample :
    lookupKV "reduce_only" exampleMap = Option.none ∧
    (from_dict exampleMap).1.map
      (fun s => lookupKV "reduce_only" (to_dict s)) =
      .ok (some (.bool false)) := by
  constructor
  · rfl
  · decide

theorem enumFieldOkB_congr {name : String} {f : String → Option EnumV}
    {m' m : InterMap} (h : lookupKV name m' = lookupKV name m) :
    enumFieldOkB name f m' = enumFieldOkB name f m := by
  unfold enumFieldOkB
  rw [h]

/-- C1.  The decode-of-encode roundtrip on the section-6 example record:
`from_dict (to_dict s)` succeeds but returns a record whose `timestamp`
field holds the encoded STRING `"2024-02-19T12:00:00Z"` instead of the
original datetime - `from_dict` converts the enum and decimal fields back
but never parses the timestamp, so `decode(encode(s)) ≠ s`.  Every other
field round-trips exactly. -/
theorem c1_roundtrip_timestamp_eval :
    (from_dict (to_dict exSignal)).1 = .ok exDecoded ∧
    exDecoded ≠ exSignal ∧
    exDecoded.timestamp = TsVal.str "2024-02-19T12:00:00Z" ∧
    exSignal.timestamp = TsVal.dt ⟨2024, 2, 19, 12, 0, 0, 0⟩ :=
  ⟨by decide, by decide, rfl, rfl⟩

/-- C3.  The `TradingSignal` dataclass declares the non-default field
`message` AFTER defaulted fields (`fixed_size` ... `reduce_only`), so
Python's `@dataclass` signature rule is violated: the decorator raises
`TypeError` at class-definition time and direct construction can never
succeed.  `noRequiredAfterDefault` is that rule; on the source's declared
field list it is `false`, and `message` is a required field that appears
after the defaulted tail begins. -/
theorem c3_dataclass_field_order :
    noRequiredAfterDefault declaredFields = false ∧
    ("message", false) ∈ declaredFields.dropWhile (fun f => !f.2) := by
  refine ⟨by decide, by decide⟩

/-- C4.  Construction fails with the percent `ValueError` (the spec's
`InvalidPercent`) exactly when `amount_capital_percent` is outside
`(0, 100]` as an exact rational: the percent check is the first check of
`__post_init__`, so the equivalence holds for every record; at the
boundary, `0` and `100.01` fail and `100` succeeds on the baseline. -/
theorem c4_percent_validation :
    (∀ s : TradingSignal,
      (postInit s = .error (.valueError
          "amount_capital_percent must be between 0 and 100") ↔
        ¬ (0 < s.amount_capital_percent.toRat ∧
           s.amount_capital_percent.toRat ≤ 100))) ∧
    postInit { exSignal with amount_capital_percent := dec0 } =
      .error (.valueError "amount_capital_percent must be between 0 and 100") ∧
    postInit { exSignal with amount_capital_percent := dec100_01 } =
      .error (.valueError "amount_capital_percent must be between 0 and 100") ∧
    postInit { exSignal with amount_capital_percent := dec100 } =
      .ok { exSignal with amount_capital_percent := dec100 } := by
  refine ⟨?_, by decide, by decide, by decide⟩
  intro s
  unfold postInit
  by_cases hc : Decimal.intLt 0 s.amount_capital_percent = true ∧
      Decimal.leInt s.amount_capital_percent 100 = true
  · rw [if_neg (not_not_intro hc)]
    constructor
    · intro h
      exfalso
      split_ifs at h <;> simp at h
    · intro h
      exfalso
      apply h
      have h1 := (Decimal.intLt_iff 0 s.amount_capital_percent).mp hc.1
      have h2 := (Decimal.leInt_iff s.amount_capital_percent 100).mp hc.2
      exact ⟨by exact_mod_cast h1, by exact_mod_cast h2⟩
  · rw [if_pos hc]
    constructor
    · intro _ hr
      apply hc
      refine ⟨(Decimal.intLt_iff 0 s.amount_capital_percent).mpr ?_,
        (Decimal.leInt_iff s.amount_capital_percent 100).mpr ?_⟩
      · exact_mod_cast hr.1
      · exact_mod_cast hr.2
    · intro _
      rfl

/-- C5.  With the percent invariant satisfied and `trade_type = EVM`,
construction fails with the contract-address `ValueError` (the spec's
`MissingRequiredField{contract_address}`) precisely when the address is
absent or empty (Python falsy), and never raises that failure when a
non-empty address is supplied. -/
theorem c5_evm_contract_required :
    ∀ s : TradingSignal,
      (Decimal.intLt 0 s.amount_capital_percent = true ∧
        Decimal.leInt s.amount_capital_percent 100 = true) →
      s.trade_type = TradeType.EVM →
      ((strFalsy s.contract_address = true →
        postInit s = .error (.valueError
          "contract_address is required for EVM trades")) ∧
       (strFalsy s.contract_address = false →
        postInit s ≠ .error (.valueError
          "contract_address is required for EVM trades"))) := by
  intro s hp hevm
  constructor
  · intro hfal
    unfold postInit
    rw [if_neg (not_not_intro hp), if_pos ⟨hevm, hfal⟩]
  · intro hfal heq
    unfold postInit at heq
    rw [if_neg (not_not_intro hp),
      if_neg (show ¬ (s.trade_type = TradeType.EVM ∧
          strFalsy s.contract_address = true) by
        rintro ⟨_, h2⟩
        rw [hfal] at h2
        cases h2)] at heq
    split_ifs at heq <;> simp at heq

/-- Witness for C5 at the section-6 baseline switched to EVM. -/
theorem c5_evm_contract_required_witness :
    postInit evmNoContract = .error (.valueError
      "contract_address is required for EVM trades") ∧
    postInit evmWithContract ≠ .error (.valueError
      "contract_address is required for EVM trades") :=
  ⟨(c5_evm_contract_required evmNoContract (by decide) rfl).1 (by decide),
   (c5_evm_contract_required evmWithContract (by decide) rfl).2 (by decide)⟩

/-- C6.  Holding all other fields of the known-good section-6 baseline
constant: LIMIT without a limit price fails, STOP_LOSS without a stop
price fails, TAKE_PROFIT without a take-profit price fails - each check
independently. -/
theorem c6_conditional_price_requirements :
    postInit { exSignal with limit_price := Option.none } =
      .error (.valueError
        "limit_price is required for LIMIT and POST_ONLY orders") ∧
    postInit { exSignal with order_type := OrderType.STOP_LOSS } =
      .error (.valueError "stop_price is required for STOP_LOSS orders") ∧
    postInit { exSignal with order_type := OrderType.TAKE_PROFIT } =
      .error (.valueError
        "take_profit_price is required for TAKE_PROFIT orders") :=
  ⟨by decide, by decide, by decide⟩

/-- C7 (amended).  When the first three enum fields of the input map are
each absent or valid and `order_type` carries a tag outside the closed
set, decoding fails - but with Python's bare `KeyError` carrying ONLY the
offending value (`enum_class[data[field]]` raises `KeyError(tag)`), not
with the specification's `UnknownEnumValue{field, value}`: the offending
FIELD is not named in the failure.  See the counterexample for the frozen
claim's falsity. -/
theorem c7_unknown_enum_amended (m : InterMap) (v : String)
    (h1 : enumFieldOkB "type"
      (fun t => (SignalType.fromName t).map EnumV.sig) m = true)
    (h2 : enumFieldOkB "trade_type"
      (fun t => (TradeType.fromName t).map EnumV.tt) m = true)
    (h3 : enumFieldOkB "side"
      (fun t => (Side.fromName t).map EnumV.sd) m = true)
    (hv : lookupKV "order_type" m = some (.str v))
    (hbad : OrderType.fromName v = Option.none) :
    (from_dict m).1 = .error (.keyError (.str v)) := by
  have c1 := convEnum_ok_of h1
  have P1tt : lookupKV "trade_type" ((convEnum "type"
      (fun t => (SignalType.fromName t).map EnumV.sig) m).2) =
      lookupKV "trade_type" m := convEnum_preserve _ _ _ _ (by decide)
  have P1sd : lookupKV "side" ((convEnum "type"
      (fun t => (SignalType.fromName t).map EnumV.sig) m).2) =
      lookupKV "side" m := convEnum_preserve _ _ _ _ (by decide)
  have P1ot : lookupKV "order_type" ((convEnum "type"
      (fun t => (SignalType.fromName t).map EnumV.sig) m).2) =
      lookupKV "order_type" m := convEnum_preserve _ _ _ _ (by decide)
  generalize hm1 : (convEnum "type"
    (fun t => (SignalType.fromName t).map EnumV.sig) m).2 = m1 at P1tt P1sd P1ot
  have h2' : enumFieldOkB "trade_type"
      (fun t => (TradeType.fromName t).map EnumV.tt) m1 = true := by
    rw [enumFieldOkB_congr P1tt]
    exact h2
  have c2 := convEnum_ok_of h2'
  have P2sd : lookupKV "side" ((convEnum "trade_type"
      (fun t => (TradeType.fromName t).map EnumV.tt) m1).2) =
      lookupKV "side" m1 := convEnum_preserve _ _ _ _ (by decide)
  have P2ot : lookupKV "order_type" ((convEnum "trade_type"
      (fun t => (TradeType.fromName t).map EnumV.tt) m1).2) =
      lookupKV "order_type" m1 := convEnum_preserve _ _ _ _ (by decide)
  generalize hm2 : (convEnum "trade_type"
    (fun t => (TradeType.fromName t).map EnumV.tt) m1).2 = m2 at P2sd P2ot
  have h3' : enumFieldOkB "side"
      (fun t => (Side.fromName t).map EnumV.sd) m2 = true := by
    rw [enumFieldOkB_congr P2sd, enumFieldOkB_congr P1sd]
    exact h3
  have c3 := convEnum_ok_of h3'
  have P3ot : lookupKV "order_type" ((convEnum "side"
      (fun t => (Side.fromName t).map EnumV.sd) m2).2) =
      lookupKV "order_type" m2 := convEnum_preserve _ _ _ _ (by decide)
  generalize hm3 : (convEnum "side"
    (fun t => (Side.fromName t).map EnumV.sd) m2).2 = m3 at P3ot
  have hv3 : lookupKV "order_type" m3 = some (.str v) := by
    rw [P3ot, P2ot, P1ot]
    exact hv
  apply from_dict_fst_err
  unfold allConvSteps
  rw [runSteps_cons_ok2 c1, hm1, runSteps_cons_ok2 c2, hm2,
    runSteps_cons_ok2 c3, hm3]
  exact runSteps_cons_err (@convEnum_bad "order_type"
    (fun t => (OrderType.fromName t).map EnumV.ot) m3 v hv3 (by simp [hbad]))

/-- Witness for C7 (amended) on the example map with tag `BOGUS`. -/
theorem c7_unknown_enum_amended_witness :
    (from_dict bogusMap).1 = .error (.keyError (.str "BOGUS")) :=
  c7_unknown_enum_amended bogusMap "BOGUS" (by decide) (by decide)
    (by decide) (by decide) (by decide)

/-- Counterexample to C7 as frozen: decoding the example map with
`order_type = "BOGUS"` raises `KeyError('BOGUS')` - an error carrying the
value only - and NOT the field-naming failure
`UnknownEnumValue{order_type, "BOGUS"}` of the specification's taxonomy. -/
theorem c7_counterexample :
    (from_dict bogusMap).1 = .error (.keyError (.str "BOGUS")) ∧
    (from_dict bogusMap).1 ≠
      .error (.unknownEnumValue "order_type" (.str "BOGUS")) :=
  ⟨by decide, by decide⟩

/-- C8.  The encoder omits every attribute whose value is `None`: if the
raw attribute map of a record holds `None` at a key, `to_dict` produces no
entry for that key; in particular a record without `fixed_size` encodes to
a map with no `fixed_size` key at all. -/
theorem c8_sparse_encoding :
    (∀ (s : TradingSignal) (k : String),
      lookupKV k (fieldsOf s) = some PyVal.none →
      lookupKV k (to_dict s) = Option.none) ∧
    (∀ s : TradingSignal, s.fixed_size = Option.none →
      lookupKV "fixed_size" (to_dict s) = Option.none) := by
  have base : ∀ (s : TradingSignal) (k : String),
      lookupKV k (fieldsOf s) = some PyVal.none →
      lookupKV k (to_dict s) = Option.none := by
    intro s k h
    rw [lookup_to_dict, h]
    rfl
  refine ⟨base, fun s h => base s "fixed_size" ?_⟩
  simp [fieldsOf, lookupKV, optDecPy, h]

/-- Witness for C8: the baseline with `fixed_size` removed. -/
theorem c8_sparse_encoding_witness :
    lookupKV "fixed_size"
      (to_dict { exSignal with fixed_size := Option.none }) = Option.none :=
  c8_sparse_encoding.2 { exSignal with fixed_size := Option.none } rfl

/-- C9 (amended).  `from_dict` MUTATES its input dict: the conversion
passes write the converted values back in place, so for any map whose
`type` field holds a valid tag string the map after the call differs from
the map before (its `type` entry now holds the enum member, not the tag
string).  The frozen claim - the input map is left unchanged - is false;
see the counterexample. -/
theorem c9_from_dict_mutates (m : InterMap) (v : String) (e : SignalType)
    (h1 : lookupKV "type" m = some (.str v))
    (h2 : SignalType.fromName v = some e) :
    (from_dict m).2 ≠ m := by
  obtain ⟨m1, e1, L1, K1⟩ := @convEnum_step "type"
    (fun t => (SignalType.fromName t).map EnumV.sig) m v (EnumV.sig e) h1
    (by simp [h2])
  have hrest : ∀ f ∈ [convEnum "trade_type"
        (fun t => (TradeType.fromName t).map EnumV.tt),
      convEnum "side" (fun t => (Side.fromName t).map EnumV.sd),
      convEnum "order_type" (fun t => (OrderType.fromName t).map EnumV.ot),
      convDec "amount_capital_percent", convDec "fixed_size",
      convDec "leverage", convDec "limit_price", convDec "stop_price",
      convDec "take_profit_price", convDec "slippage"],
      ∀ mm : InterMap, lookupKV "type" ((f mm).2) = lookupKV "type" mm := by
    intro f hf
    simp only [List.mem_cons, List.not_mem_nil, or_false] at hf
    rcases hf with rfl | rfl | rfl | rfl | rfl | rfl | rfl | rfl | rfl | rfl
    · exact fun mm => convEnum_preserve _ _ _ _ (by decide)
    · exact fun mm => convEnum_preserve _ _ _ _ (by decide)
    · exact fun mm => convEnum_preserve _ _ _ _ (by decide)
    · exact fun mm => convDec_preserve _ _ _ (by decide)
    · exact fun mm => convDec_preserve _ _ _ (by decide)
    · exact fun mm => convDec_preserve _ _ _ (by decide)
    · exact fun mm => convDec_preserve _ _ _ (by decide)
    · exact fun mm => convDec_preserve _ _ _ (by decide)
    · exact fun mm => convDec_preserve _ _ _ (by decide)
    · exact fun mm => convDec_preserve _ _ _ (by decide)
  intro heq
  have hfin : lookupKV "type" ((from_dict m).2) = some (.enum (.sig e)) := by
    rw [from_dict_snd]
    unfold allConvSteps
    rw [runSteps_cons_ok e1, runSteps_preserve_of "type" _ hrest m1, L1]
    simp
  rw [heq, h1] at hfin
  exact absurd hfin (by simp)

/-- Witness for C9 (amended) on the section-6 example map. -/
theorem c9_from_dict_mutates_witness : (from_dict exampleMap).2 ≠ exampleMap :=
  c9_from_dict_mutates exampleMap "TRADE" SignalType.TRADE rfl rfl

/-- Counterexample to C9 as frozen: after `from_dict` returns successfully
on the section-6 example map, the caller's map is changed - its `type`
entry now holds the enum member where the tag string stood. -/
theorem c9_counterexample :
    (from_dict exampleMap).2 ≠ exampleMap ∧
    lookupKV "type" (from_dict exampleMap).2 =
      some (.enum (.sig SignalType.TRADE)) ∧
    lookupKV "type" exampleMap = some (.str "TRADE") :=
  ⟨by decide, by decide, rfl⟩

/-- C10.  The encoded map of EVERY record contains the `reduce_only` key
(only `None`-valued attributes are omitted and `reduce_only` is a boolean,
never `None`; `False is not None`), and in particular a record decoded
from a map WITHOUT a `reduce_only` key still encodes with
`reduce_only = False` present. -/
theorem c10_reduce_only_always_encoded :
    (∀ s : TradingSignal,
      lookupKV "reduce_only" (to_dict s) = some (.bool s.reduce_only)) ∧
    lookupKV "reduce_only" exampleMap = Option.none ∧
    (from_dict exampleMap).1.map
      (fun s => lookupKV "reduce_only" (to_dict s)) =
      .ok (some (.bool false)) := by
  refine ⟨?_, rfl, by decide⟩
  intro s
  rw [lookup_to_dict]
  simp [fieldsOf, lookupKV, convVal]
